import Mathlib

/-!
# The etcd queue adapter of key-transparency (`impl/etcd/queue/etcd.go`)

The file embeds the adapter of `etcd.go`: the record type `kv`, the
constructor `New`, the writers `AdvanceEpoch`, `Enqueue` and `enqueue`, the
reader `Dequeue` and the decoding callback it builds.

Side effects are explicit: a Go call that returns `error` is a function from
a world to a result and a new world (`Action`). The caller's callbacks and the
store recipe are parameters, so a statement about the adapter holds for every
callback and every recipe; recording ones (`recordProcess`, `recordAdvance`,
`recordCreate`) write each call to a trace, which is how "called exactly once"
is stated.

The adapter calls code that `etcd.go` does not hold:

* `encoding/gob` of the Go standard library. `Gob` is the part the adapter
  uses: one `Encode` of a `kv` on a fresh encoder, one `Decode` into a zero
  `kv` on a fresh decoder. The theorems on the adapter's control flow hold for
  every `Gob`. `gob kvId tooBig` is a model of the library's wire format for
  the type `kv`, used where a statement is about the bytes.
* `recipe.NewUniqueKV` of etcd, a parameter of the writers, and the method
  `q.dequeue`, a parameter of `Dequeue`. `storeNewUniqueKV` and `storeDequeue`
  model them on a store that is the sequence of the records created.
-/

namespace EtcdQueue

/-! ## Data model -/

/-- Go `byte`. -/
abbrev Byte := UInt8

/-- The contents of a byte buffer or of a Go `string`. -/
abbrev Bytes := List Byte

/-- Go `[]byte`: `none` is the nil slice, `some bs` a non-nil slice holding `bs`
(`some []` is the empty, non-nil slice). -/
abbrev ByteSlice := Option Bytes

/-- The bytes a slice holds; the nil slice holds none. -/
def ByteSlice.contents (s : ByteSlice) : Bytes := s.getD []

/-- Go `len(s)`. -/
def ByteSlice.len (s : ByteSlice) : Nat := s.contents.length

/-- A non-nil Go `error` value. `EOF` and `ErrUnexpectedEOF` are `io.EOF` and
`io.ErrUnexpectedEOF`, which gob returns as they are; `gob` carries the text
of an error made by the gob package; `other` is any error of the store or of
a caller's callback. -/
inductive Error where
  | EOF : Error
  | ErrUnexpectedEOF : Error
  | gob (msg : String) : Error
  | other (msg : String) : Error
  deriving DecidableEq, Repr

/-- Go `error`: `none` is `nil`. -/
abbrev GoError := Option Error

/-- A Go call that returns `error` and may change the world `W`. -/
abbrev Action (W : Type) := W → GoError × W

/-- The record type `kv` of `etcd.go`. -/
structure kv where
  Key : ByteSlice
  Val : ByteSlice
  AdvanceEpoch : Bool
  deriving DecidableEq, Repr

/-- Go `context.Context`; the adapter only ever stores `context.TODO()`. -/
inductive Context where
  | TODO : Context
  deriving DecidableEq, Repr

/-- The struct `Queue` of `etcd.go`. `Client` stands for `*v3.Client`. -/
structure Queue (Client : Type) where
  client : Client
  ctx : Context
  keyPrefix : String

/-- The part of `encoding/gob` the adapter calls. `Encode r` is
`gob.NewEncoder(&buf).Encode(r)` on a fresh buffer: the error, or the bytes of
`buf` afterwards. `Decode data` is `gob.NewDecoder(bytes.NewBuffer(data)).Decode(&dataKV)`
on a zero `dataKV`: the error, or `dataKV` afterwards. -/
structure Gob where
  Encode : kv → Except Error Bytes
  Decode : Bytes → Except Error kv

/-- The signature of `recipe.NewUniqueKV(client, prefix, val, leaseID)`, with the
returned `*RemoteKV` dropped (the adapter discards it). -/
abbrev UniqueKV (Client W : Type) := Client → String → Bytes → Int → Action W

/-! ## The adapter (`etcd.go`) -/

/-- `New` of `etcd.go`. -/
def New {Client : Type} (client : Client) (mapID : String) : Queue Client :=
  ⟨client, Context.TODO, mapID⟩

/-- `Queue.enqueue` of `etcd.go`: one `recipe.NewUniqueKV` with lease 0. -/
def Queue.enqueue {Client W : Type} (NewUniqueKV : UniqueKV Client W)
    (q : Queue Client) (val : Bytes) : Action W :=
  fun w => NewUniqueKV q.client q.keyPrefix val 0 w

/-- `Queue.AdvanceEpoch` of `etcd.go`. -/
def Queue.AdvanceEpoch {Client W : Type} (g : Gob) (NewUniqueKV : UniqueKV Client W)
    (q : Queue Client) : Action W :=
  fun w =>
    match g.Encode ⟨none, none, true⟩ with
    | .error err => (some err, w)
    | .ok buf => q.enqueue NewUniqueKV buf w

/-- `Queue.Enqueue` of `etcd.go`. -/
def Queue.Enqueue {Client W : Type} (g : Gob) (NewUniqueKV : UniqueKV Client W)
    (q : Queue Client) (key value : ByteSlice) : Action W :=
  fun w =>
    match g.Encode ⟨key, value, false⟩ with
    | .error err => (some err, w)
    | .ok buf => q.enqueue NewUniqueKV buf w

/-- The function literal that `Queue.Dequeue` passes to `q.dequeue`. -/
def dequeueCallback {W : Type} (g : Gob)
    (processFunc : ByteSlice → ByteSlice → Action W) (advanceFunc : Action W)
    (data : Bytes) : Action W :=
  fun w =>
    match g.Decode data with
    | .error err => (some err, w)
    | .ok dataKV =>
      if dataKV.AdvanceEpoch then advanceFunc w
      else processFunc dataKV.Key dataKV.Val w

/-- `Queue.Dequeue` of `etcd.go`: hands the decoding callback to `q.dequeue`.
`dequeue` is that method, which `etcd.go` calls and does not define. -/
def Queue.Dequeue {Client W R : Type} (g : Gob)
    (dequeue : Queue Client → (Bytes → Action W) → R) (q : Queue Client)
    (processFunc : ByteSlice → ByteSlice → Action W) (advanceFunc : Action W) : R :=
  dequeue q (dequeueCallback g processFunc advanceFunc)

/-!
## The gob wire format of `kv`

A model of `encoding/gob`, as in current releases of Go, as far as one
`Encode` of a `kv` and one `Decode` into a `kv` go. A gob stream is a sequence of messages, each an unsigned
length followed by that many bytes. A fresh encoder first sends the type
descriptor of `kv`, the pair `(-id, wireType)`, and then the value, the pair
`(id, fields)`; a field holding the zero value of its type is left out, so a
nil and an empty slice are sent alike.

Two facts of the running process are parameters: `kvId`, the type id gob gave
to `kv` (65 when `kv` is the first user type the process hands to gob), and
`tooBig`, the bound on the length of a message.

The text of an error made by the gob package is abridged (numbers and type
names are left out).
-/

/-- Size in bytes of a `uint64` (`uint64Size` of gob). -/
def uint64Size : Nat := 8

/-- Lowest type id gob grants to a user type is `firstUserId + 1`. -/
def firstUserId : Nat := 64

/-- Go `uint8(x)`. -/
def uint8 (x : Nat) : Byte := UInt8.ofNat x

/-- Go `uint64(x)` of a non-negative integer. -/
def uint64 (x : Nat) : Nat := x % 2 ^ 64

/-- The loop of `encodeUint`: the bytes of `x`, most significant first, without
leading zero bytes. A `uint64` has at most `uint64Size` of them. -/
def uintBytes : Nat → Nat → Bytes
  | 0, _ => []
  | fuel + 1, x => if x = 0 then [] else uintBytes fuel (x / 256) ++ [uint8 x]

/-- `encoderState.encodeUint`: a value up to 0x7F is one byte; a larger one is
the negated byte count followed by the bytes, most significant first. -/
def encodeUint (x : Nat) : Bytes :=
  if x ≤ 0x7F then [uint8 x]
  else
    let bs := uintBytes uint64Size x
    uint8 (256 - bs.length) :: bs

/-- `encoderState.encodeInt`: the sign goes to bit 0, a negative value is
complemented. -/
def encodeInt (i : Int) : Bytes :=
  if i < 0 then encodeUint (uint64 (2 * (-i - 1).toNat + 1))
  else encodeUint (uint64 (2 * i.toNat))

/-- The loop `x = x<<8 | uint64(b)` over the bytes read. -/
def readBigEndian (bs : Bytes) : Nat :=
  bs.foldl (fun x b => uint64 (x * 256) + b.toNat) 0

/-- `decoderState.decodeUint`: reads one unsigned integer off a message buffer
and returns it with the rest of the buffer. -/
def decodeUint (b : Bytes) : Except Error (Nat × Bytes) :=
  match b with
  | [] => .error Error.EOF
  | c :: buf =>
    if c.toNat ≤ 0x7f then .ok (c.toNat, buf)
    else
      let n := 256 - c.toNat
      if n > uint64Size then .error (Error.gob "gob: encoded unsigned integer out of range")
      else if buf.length < n then .error (Error.gob "invalid uint data length")
      else .ok (readBigEndian (buf.take n), buf.drop n)

/-- `decodeUintReader`: the same integer read off the input stream, where a
stream that ends early is an `io` error. -/
def decodeUintReader (r : Bytes) : Except Error (Nat × Bytes) :=
  match r with
  | [] => .error Error.EOF
  | c :: rest =>
    if c.toNat ≤ 0x7f then .ok (c.toNat, rest)
    else
      let n := 256 - c.toNat
      if n > uint64Size then .error (Error.gob "gob: encoded unsigned integer out of range")
      else if rest.length < n then .error Error.ErrUnexpectedEOF
      else .ok (readBigEndian (rest.take n), rest.drop n)

/-- `toInt` of gob: undoes `encodeInt`. -/
def toInt (x : Nat) : Int :=
  if x % 2 = 1 then -((x / 2 : Nat) : Int) - 1 else ((x / 2 : Nat) : Int)

/-- The ASCII bytes of an identifier. -/
def ascii (s : String) : Bytes := s.data.map (fun c => uint8 c.toNat)

/-- A gob `string`: its length, then its bytes. -/
def encodeString (s : String) : Bytes := encodeUint (ascii s).length ++ ascii s

/-- Type id of the basic gob type `bool`. -/
def tBool : Int := 1

/-- Type id of the basic gob type `[]byte`. -/
def tBytes : Int := 5

/-- One `fieldType{Name, Id}` of a struct descriptor. -/
def encodeFieldType (name : String) (id : Int) : Bytes :=
  [1] ++ encodeString name ++ [1] ++ encodeInt id ++ [0]

/-- The `wireType` of a struct type: field `StructT` (delta 3) holding a
`structType{CommonType{Name, Id}, Field}`. -/
def structWireType (name : String) (id : Nat) (fields : List (String × Int)) : Bytes :=
  [3] ++ ([1] ++ ([1] ++ encodeString name ++ [1] ++ encodeInt id ++ [0])
    ++ [1] ++ encodeUint fields.length
    ++ (fields.map (fun f => encodeFieldType f.1 f.2)).flatten ++ [0]) ++ [0]

/-- The `wireType` gob sends for `kv` when the process gave it type id `id`. -/
def kvWireType (id : Nat) : Bytes :=
  structWireType "kv" id [("Key", tBytes), ("Val", tBytes), ("AdvanceEpoch", tBool)]

/-- `Encoder.writeMessage`: the length of the message, then the message; a
message of `tooBig` bytes or more is refused. -/
def writeMessage (tooBig : Nat) (message : Bytes) : Except Error Bytes :=
  if message.length ≥ tooBig then .error (Error.gob "gob: encoder: message too big")
  else .ok (encodeUint (uint64 message.length) ++ message)

/-- `encoderState.update`: the distance from the last field sent. -/
def update (fieldnum : Int) (field : Nat) : Bytes :=
  encodeUint (uint64 ((field : Int) - fieldnum).toNat)

/-- `encUint8Array` for struct field number `field`: a slice of length 0 (nil
or empty) is not sent. Returns the bytes and the new `fieldnum`. -/
def encUint8Array (fieldnum : Int) (field : Nat) (v : ByteSlice) : Bytes × Int :=
  if v.len > 0 then (update fieldnum field ++ encodeUint (uint64 v.len) ++ v.contents, field)
  else ([], fieldnum)

/-- `encBool` for struct field number `field`: `false` is not sent. -/
def encBool (fieldnum : Int) (field : Nat) (v : Bool) : Bytes × Int :=
  if v then (update fieldnum field ++ encodeUint 1, field) else ([], fieldnum)

/-- `Encoder.encodeStruct` on a `kv`: the three fields in order, then the
terminator. -/
def encodeStruct (r : kv) : Bytes :=
  let f0 := encUint8Array (-1) 0 r.Key
  let f1 := encUint8Array f0.2 1 r.Val
  let f2 := encBool f1.2 2 r.AdvanceEpoch
  f0.1 ++ f1.1 ++ f2.1 ++ encodeUint 0

/-- `Encoder.Encode` of a `kv` on a fresh encoder and buffer: the type
descriptor message `(-id, wireType)`, then the value message `(id, fields)`. -/
def gobEncode (kvId tooBig : Nat) (r : kv) : Except Error Bytes :=
  match writeMessage tooBig (encodeInt (-(kvId : Int)) ++ kvWireType kvId) with
  | .error e => .error e
  | .ok descriptor =>
    match writeMessage tooBig (encodeInt kvId ++ encodeStruct r) with
    | .error e => .error e
    | .ok value => .ok (descriptor ++ value)

/-- `Decoder.recvMessage`: reads the length and then that many bytes. Returns
the message and the rest of the stream. -/
def recvMessage (tooBig : Nat) (r : Bytes) : Except Error (Bytes × Bytes) :=
  match decodeUintReader r with
  | .error e => .error e
  | .ok (nbytes, rest) =>
    if nbytes ≥ tooBig then .error (Error.gob "invalid message length")
    else if rest.length < nbytes then .error Error.ErrUnexpectedEOF
    else .ok (rest.take nbytes, rest.drop nbytes)

/-- `Decoder.nextInt`: the signed integer at the head of the message. -/
def nextInt (buf : Bytes) : Except Error (Int × Bytes) :=
  match decodeUintReader buf with
  | .error e => .error e
  | .ok (x, rest) => .ok (toInt x, rest)

/-- `decUint8Slice`: the length (checked by `getLength`), then the bytes. A
destination of capacity 0 that receives length 0 stays nil. -/
def decUint8Slice (tooBig : Nat) (b : Bytes) : Except Error (ByteSlice × Bytes) :=
  match decodeUint b with
  | .error e => .error e
  | .ok (n, rest) =>
    if n ≥ 2 ^ 63 ∨ rest.length < n ∨ tooBig ≤ n then
      .error (Error.gob "bad []uint8 slice length")
    else if n = 0 then .ok (none, rest)
    else .ok (some (rest.take n), rest.drop n)

/-- `decBool`: any non-zero integer is `true`. -/
def decBool (b : Bytes) : Except Error (Bool × Bytes) :=
  match decodeUint b with
  | .error e => .error e
  | .ok (x, rest) => .ok (x != 0, rest)

/-- `Decoder.decodeStruct` into a `kv` whose remote type is the `kv` descriptor
(three fields: `Key`, `Val`, `AdvanceEpoch`). The loop runs while the buffer
is not empty; each round reads at least one byte, so `fuel = len(buffer)`
rounds are enough. -/
def decodeStruct (tooBig : Nat) : Nat → Int → Bytes → kv → Except Error kv
  | 0, _, _, v => .ok v
  | fuel + 1, fieldnum, b, v =>
    if b.length = 0 then .ok v
    else
      match decodeUint b with
      | .error e => .error e
      | .ok (delta, b1) =>
        if delta ≥ 2 ^ 63 then .error (Error.gob "field delta out of range")
        else if delta = 0 then .ok v
        else if fieldnum ≥ 3 - (delta : Int) then
          .error (Error.gob "gob: bad data: field numbers out of bounds")
        else
          let field := fieldnum + delta
          if field = 0 then
            match decUint8Slice tooBig b1 with
            | .error e => .error e
            | .ok (s, b2) => decodeStruct tooBig fuel field b2 { v with Key := s }
          else if field = 1 then
            match decUint8Slice tooBig b1 with
            | .error e => .error e
            | .ok (s, b2) => decodeStruct tooBig fuel field b2 { v with Val := s }
          else
            match decBool b1 with
            | .error e => .error e
            | .ok (x, b2) => decodeStruct tooBig fuel field b2 { v with AdvanceEpoch := x }

/-- `Decoder.Decode` into a zero `kv` on a fresh decoder, for a stream that
opens with the `kv` type descriptor: the descriptor message, then the value
message of the same type id. A stream that opens with a type descriptor other
than that of `kv` is answered with an error here; the library would go on to
match that descriptor against `kv` field by field. -/
def gobDecode (tooBig : Nat) (data : Bytes) : Except Error kv :=
  match recvMessage tooBig data with
  | .error e => .error e
  | .ok (m1, r1) =>
    match nextInt m1 with
    | .error e => .error e
    | .ok (i1, wire) =>
      if i1 ≥ 0 then .error (Error.gob "gob: unknown type id or corrupted data")
      else if (-i1).toNat < firstUserId then .error (Error.gob "gob: duplicate type received")
      else if wire ≠ kvWireType (-i1).toNat then
        .error (Error.gob "gob: type descriptor is not that of kv")
      else
        match recvMessage tooBig r1 with
        | .error Error.EOF => .error Error.ErrUnexpectedEOF
        | .error e => .error e
        | .ok (m2, _) =>
          match nextInt m2 with
          | .error e => .error e
          | .ok (i2, fields) =>
            if i2 ≠ -i1 then .error (Error.gob "gob: unknown type id or corrupted data")
            else decodeStruct tooBig fields.length (-1) fields ⟨none, none, false⟩

/-- The model of `encoding/gob` for a process in which gob gave `kv` the type id
`kvId` and whose message size bound is `tooBig` (`1 << 30` on 32-bit targets
and in old releases, `1 << 33` on 64-bit targets). -/
def gob (kvId tooBig : Nat) : Gob := ⟨gobEncode kvId tooBig, gobDecode tooBig⟩

/-- What a slice field of a zero `kv` holds after `gobDecode` read back what
`gobEncode` wrote for `s`: nil when `s` has length 0, else a slice with the
same bytes. -/
def ByteSlice.received (s : ByteSlice) : ByteSlice :=
  if s.len = 0 then none else some s.contents

/-- The record `gobDecode` reads back from what `gobEncode` wrote for `r`. -/
def kv.received (r : kv) : kv := ⟨r.Key.received, r.Val.received, r.AdvanceEpoch⟩

/-! ## Observing the calls the adapter makes -/

/-- One call the adapter makes to the outside: a unique-key creation with its
four arguments, or one of the caller's two callbacks with its arguments. -/
inductive Event (Client : Type) where
  | create (client : Client) (keyPrefix : String) (val : Bytes) (lease : Int) : Event Client
  | process (key value : ByteSlice) : Event Client
  | advance : Event Client
  deriving DecidableEq, Repr

/-- The calls made so far, oldest first. -/
abbrev Trace (Client : Type) := List (Event Client)

/-- A `recipe.NewUniqueKV` that writes each call to the trace and answers with
`outcome`. -/
def recordCreate {Client : Type} (outcome : Client → String → Bytes → Int → GoError) :
    UniqueKV Client (Trace Client) :=
  fun client keyPrefix val lease t =>
    (outcome client keyPrefix val lease, t ++ [Event.create client keyPrefix val lease])

/-- A `processFunc` that writes each call to the trace and answers with
`outcome`. -/
def recordProcess {Client : Type} (outcome : ByteSlice → ByteSlice → GoError) :
    ByteSlice → ByteSlice → Action (Trace Client) :=
  fun key value t => (outcome key value, t ++ [Event.process key value])

/-- An `advanceFunc` that writes each call to the trace and answers with
`outcome`. -/
def recordAdvance {Client : Type} (outcome : GoError) : Action (Trace Client) :=
  fun t => (outcome, t ++ [Event.advance])

/-- The values of the unique-key creations of a trace, oldest first: the bytes
handed to the store. -/
def createdValues {Client : Type} : Trace Client → List Bytes
  | [] => []
  | Event.create _ _ val _ :: t => val :: createdValues t
  | _ :: t => createdValues t

/-! ## The store as a sequence of records -/

/-- A record of the store: the key prefix it was created under and its value. -/
structure Record where
  keyPrefix : String
  val : Bytes
  deriving DecidableEq, Repr

/-- The store and the world of the caller's callbacks. -/
abbrev StoreWorld (W : Type) := List Record × W

/-- Modelled from the spec: the coordination store behind `recipe.NewUniqueKV`,
which is outside src. The store is the sequence of the records created, in
creation order; a creation appends one record and returns nil. -/
def storeNewUniqueKV {Client W : Type} : UniqueKV Client (StoreWorld W) :=
  fun _ keyPrefix val _ s => (none, (s.1 ++ [⟨keyPrefix, val⟩], s.2))

/-- The oldest record created under `keyPrefix`, and the store without it. -/
def takeFirst (keyPrefix : String) : List Record → Option (Bytes × List Record)
  | [] => none
  | r :: rs =>
    if r.keyPrefix = keyPrefix then some (r.val, rs)
    else
      match takeFirst keyPrefix rs with
      | none => none
      | some (val, rest) => some (val, r :: rest)

/-- Modelled from the spec: `Queue.dequeue`, the method `Dequeue` forwards to,
which src does not hold (the store's blocking watch/dequeue recipe of a FIFO
queue). With no record under the queue's key prefix the call blocks: `none`,
it has not returned. Otherwise the oldest record under the prefix is taken
off the store, its value goes to the callback, and the callback's error is
returned. -/
def storeDequeue {Client W : Type} (q : Queue Client) (processFunc : Bytes → Action W) :
    StoreWorld W → Option (GoError × StoreWorld W) :=
  fun s =>
    match takeFirst q.keyPrefix s.1 with
    | none => none
    | some (val, rest) =>
      let r := processFunc val s.2
      some (r.1, (rest, r.2))

/-- The calls `Enqueue(k1, v1)`, ..., `Enqueue(kn, vn)` one after the other on
the store model: the errors returned and the world afterwards. -/
def enqueueAll {Client W : Type} (g : Gob) (q : Queue Client) :
    List (ByteSlice × ByteSlice) → StoreWorld W → List GoError × StoreWorld W
  | [], s => ([], s)
  | (key, value) :: rest, s =>
    let r := q.Enqueue g storeNewUniqueKV key value s
    let rs := enqueueAll g q rest r.2
    (r.1 :: rs.1, rs.2)

/-- As many as `n` successive `Dequeue` calls on the store model, each started
when the one before has returned: the errors returned and the world
afterwards, or `none` when one of the calls blocks. -/
def dequeueTimes {Client W : Type} (g : Gob) (q : Queue Client)
    (processFunc : ByteSlice → ByteSlice → Action W) (advanceFunc : Action W) :
    Nat → StoreWorld W → Option (List GoError × StoreWorld W)
  | 0, s => some ([], s)
  | n + 1, s =>
    match q.Dequeue g storeDequeue processFunc advanceFunc s with
    | none => none
    | some (err, s1) =>
      match dequeueTimes g q processFunc advanceFunc n s1 with
      | none => none
      | some (errs, s2) => some (err :: errs, s2)

/-- One call of a writer on the store model: `q.Enqueue(key, value)` or
`q.AdvanceEpoch()`, on any queue of any writer. -/
inductive WriterCall (Client : Type) where
  | Enqueue (q : Queue Client) (key value : ByteSlice) : WriterCall Client
  | AdvanceEpoch (q : Queue Client) : WriterCall Client

/-- The writer's call on the store model. -/
def WriterCall.run {Client W : Type} (g : Gob) : WriterCall Client → Action (StoreWorld W)
  | WriterCall.Enqueue q key value => q.Enqueue g storeNewUniqueKV key value
  | WriterCall.AdvanceEpoch q => q.AdvanceEpoch g storeNewUniqueKV

/-- The writers' calls one after the other: the world afterwards. -/
def runWriters {Client W : Type} (g : Gob) :
    List (WriterCall Client) → StoreWorld W → StoreWorld W
  | [], s => s
  | c :: cs, s => runWriters g cs (c.run g s).2

/-- Modelled from the spec: one `Dequeue` call, started in the world `s`, while
the writers make the calls `ws` one after the other (`q.dequeue` and the
store's watch are not in src). The call blocks as long as no record lies
under its prefix and goes on as soon as one does: it is tried before each
writer's call and after the last one. The result is the error the call
returned, or `none` while it still blocks, and the world after all of `ws`. -/
def dequeueDuring {Client W : Type} (g : Gob) (q : Queue Client)
    (processFunc : ByteSlice → ByteSlice → Action W) (advanceFunc : Action W) :
    List (WriterCall Client) → StoreWorld W → Option GoError × StoreWorld W
  | [], s =>
    match q.Dequeue g storeDequeue processFunc advanceFunc s with
    | some (err, s1) => (some err, s1)
    | none => (none, s)
  | c :: cs, s =>
    match q.Dequeue g storeDequeue processFunc advanceFunc s with
    | some (err, s1) => (some err, runWriters g (c :: cs) s1)
    | none => dequeueDuring g q processFunc advanceFunc cs (c.run g s).2

/-! ## Lemmas on the wire format -/

theorem uint8_toNat (n : Nat) : (uint8 n).toNat = n % 256 := rfl

theorem readBigEndian_snoc (bs : Bytes) (b : Byte) :
    readBigEndian (bs ++ [b]) = uint64 (readBigEndian bs * 256) + b.toNat := by
  simp [readBigEndian, List.foldl_append]

theorem uintBytes_length_le (fuel x : Nat) : (uintBytes fuel x).length ≤ fuel := by
  induction fuel generalizing x with
  | zero => simp [uintBytes]
  | succ n ih =>
    unfold uintBytes
    split
    · simp
    · have := ih (x / 256)
      simp
      omega

theorem readBigEndian_uintBytes (fuel x : Nat) (hf : fuel ≤ 8) (hx : x < 256 ^ fuel) :
    readBigEndian (uintBytes fuel x) = x := by
  induction fuel generalizing x with
  | zero =>
    have : x = 0 := by simpa using hx
    simp [uintBytes, readBigEndian, this]
  | succ n ih =>
    unfold uintBytes
    split
    · next h => simp [readBigEndian, h]
    · have hx' : x / 256 < 256 ^ n := by
        rw [Nat.div_lt_iff_lt_mul (by norm_num)]
        rw [pow_succ] at hx
        exact hx
      rw [readBigEndian_snoc, ih (x / 256) (by omega) hx', uint8_toNat]
      have h64 : x < 2 ^ 64 := by
        calc x < 256 ^ (n + 1) := hx
          _ ≤ 256 ^ 8 := Nat.pow_le_pow_right (by norm_num) hf
          _ = 2 ^ 64 := by norm_num
      unfold uint64
      rw [Nat.mod_eq_of_lt (by omega)]
      omega

theorem uintBytes_pos (fuel x : Nat) (hx : 0 < x) : 0 < (uintBytes (fuel + 1) x).length := by
  unfold uintBytes
  rw [if_neg (by omega)]
  simp

theorem decodeUint_encodeUint (x : Nat) (hx : x < 2 ^ 64) (rest : Bytes) :
    decodeUint (encodeUint x ++ rest) = .ok (x, rest) := by
  unfold encodeUint
  split
  · next h =>
    have : x % 256 = x := Nat.mod_eq_of_lt (by omega)
    simp [decodeUint, uint8_toNat, this, h]
  · next h =>
    have hlen := uintBytes_length_le uint64Size x
    have hpos := uintBytes_pos 7 x (by omega)
    have hrd := readBigEndian_uintBytes uint64Size x (by decide) (by simpa [uint64Size] using hx)
    simp only [uint64Size] at hlen hpos hrd ⊢
    generalize uintBytes 8 x = bs at hlen hpos hrd
    have hc : (256 - bs.length) % 256 = 256 - bs.length := Nat.mod_eq_of_lt (by omega)
    simp only [decodeUint, List.cons_append, uint8_toNat, hc, uint64Size]
    rw [if_neg (by omega)]
    have hn : 256 - (256 - bs.length) = bs.length := by omega
    simp only [hn]
    rw [if_neg (by omega), if_neg (by simp)]
    simp [hrd]

theorem decodeUintReader_encodeUint (x : Nat) (hx : x < 2 ^ 64) (rest : Bytes) :
    decodeUintReader (encodeUint x ++ rest) = .ok (x, rest) := by
  unfold encodeUint
  split
  · next h =>
    have : x % 256 = x := Nat.mod_eq_of_lt (by omega)
    simp [decodeUintReader, uint8_toNat, this, h]
  · next h =>
    have hlen := uintBytes_length_le uint64Size x
    have hpos := uintBytes_pos 7 x (by omega)
    have hrd := readBigEndian_uintBytes uint64Size x (by decide) (by simpa [uint64Size] using hx)
    simp only [uint64Size] at hlen hpos hrd ⊢
    generalize uintBytes 8 x = bs at hlen hpos hrd
    have hc : (256 - bs.length) % 256 = 256 - bs.length := Nat.mod_eq_of_lt (by omega)
    simp only [decodeUintReader, List.cons_append, uint8_toNat, hc, uint64Size]
    rw [if_neg (by omega)]
    have hn : 256 - (256 - bs.length) = bs.length := by omega
    simp only [hn]
    rw [if_neg (by omega), if_neg (by simp)]
    simp [hrd]

theorem contents_received (s : ByteSlice) : s.received.contents = s.contents := by
  unfold ByteSlice.received
  split
  · next h =>
    have : s.contents = [] := List.length_eq_zero.mp h
    rw [this]
    rfl
  · rfl

theorem toInt_nat (n : Nat) : toInt (2 * n) = n := by
  unfold toInt
  rw [if_neg (by omega)]
  congr 1
  omega

theorem toInt_neg (n : Nat) : toInt (2 * n + 1) = -(n : Int) - 1 := by
  unfold toInt
  rw [if_pos (by omega)]
  have : (2 * n + 1) / 2 = n := by omega
  rw [this]

theorem nextInt_encodeInt_pos (n : Nat) (hn : n < 2 ^ 62) (rest : Bytes) :
    nextInt (encodeInt (n : Int) ++ rest) = .ok ((n : Int), rest) := by
  have h1 : ¬ ((n : Int) < 0) := by omega
  have h2 : uint64 (2 * n) = 2 * n := Nat.mod_eq_of_lt (by omega)
  simp only [encodeInt, if_neg h1, Int.toNat_ofNat, h2, nextInt]
  rw [decodeUintReader_encodeUint _ (by omega)]
  simp [toInt_nat]

theorem nextInt_encodeInt_neg (n : Nat) (h0 : 0 < n) (hn : n < 2 ^ 62) (rest : Bytes) :
    nextInt (encodeInt (-(n : Int)) ++ rest) = .ok (-(n : Int), rest) := by
  have h1 : (-(n : Int) < 0) := by omega
  have h3 : (- -(n : Int) - 1).toNat = n - 1 := by omega
  have h2 : uint64 (2 * (n - 1) + 1) = 2 * (n - 1) + 1 := Nat.mod_eq_of_lt (by omega)
  simp only [encodeInt, if_pos h1, h3, h2, nextInt]
  rw [decodeUintReader_encodeUint _ (by omega)]
  simp only [toInt_neg]
  congr 2
  omega

theorem recvMessage_writeMessage (tooBig : Nat) (ht : tooBig ≤ 2 ^ 33) (message out rest : Bytes)
    (h : writeMessage tooBig message = .ok out) :
    recvMessage tooBig (out ++ rest) = .ok (message, rest) := by
  unfold writeMessage at h
  split at h
  · cases h
  · next hlt =>
    have hlt' : message.length < tooBig := by omega
    have h64 : uint64 message.length = message.length := Nat.mod_eq_of_lt (by omega)
    cases h
    simp only [h64, List.append_assoc, recvMessage]
    rw [decodeUintReader_encodeUint _ (by omega)]
    simp only []
    rw [if_neg (by omega), if_neg (by simp)]
    simp

theorem decodeUint_length_lt (b rest : Bytes) (x : Nat) (h : decodeUint b = .ok (x, rest)) :
    rest.length < b.length := by
  unfold decodeUint at h
  split at h
  · cases h
  · split at h
    · cases h; simp
    · dsimp only at h
      split at h
      · cases h
      · split at h
        · cases h
        · cases h; simp; omega

theorem decUint8Slice_length_lt (tooBig : Nat) (b rest : Bytes) (s : ByteSlice)
    (h : decUint8Slice tooBig b = .ok (s, rest)) : rest.length < b.length := by
  unfold decUint8Slice at h
  split at h
  · cases h
  · next n r1 hd =>
    have := decodeUint_length_lt _ _ _ hd
    split at h
    · cases h
    · split at h
      · cases h; exact this
      · cases h; simp; omega

theorem decBool_length_lt (b rest : Bytes) (x : Bool)
    (h : decBool b = .ok (x, rest)) : rest.length < b.length := by
  unfold decBool at h
  split at h
  · cases h
  · next n r1 hd =>
    have := decodeUint_length_lt _ _ _ hd
    cases h; exact this

/-- Once the fuel covers the buffer, more fuel changes nothing. -/
theorem decodeStruct_fuel_succ (tooBig fuel : Nat) (fieldnum : Int) (b : Bytes) (v : kv)
    (h : b.length ≤ fuel) :
    decodeStruct tooBig (fuel + 1) fieldnum b v = decodeStruct tooBig fuel fieldnum b v := by
  induction fuel generalizing fieldnum b v with
  | zero =>
    have : b.length = 0 := by omega
    simp [decodeStruct, this]
  | succ n ih =>
    rw [decodeStruct, decodeStruct]
    split
    · rfl
    · split
      · rfl
      · next delta b1 hd =>
        have h1 := decodeUint_length_lt _ _ _ hd
        split
        · rfl
        · split
          · rfl
          · split
            · rfl
            · simp only []
              split
              · split
                · rfl
                · next s b2 hs =>
                  have h2 := decUint8Slice_length_lt _ _ _ _ hs
                  exact ih _ _ _ (by omega)
              · split
                · split
                  · rfl
                  · next s b2 hs =>
                    have h2 := decUint8Slice_length_lt _ _ _ _ hs
                    exact ih _ _ _ (by omega)
                · split
                  · rfl
                  · next s b2 hs =>
                    have h2 := decBool_length_lt _ _ _ hs
                    exact ih _ _ _ (by omega)

theorem decodeStruct_fuel_add (tooBig k : Nat) (fieldnum : Int) (b : Bytes) (v : kv) :
    decodeStruct tooBig (b.length + k) fieldnum b v
      = decodeStruct tooBig b.length fieldnum b v := by
  induction k with
  | zero => rfl
  | succ n ih =>
    rw [← ih, ← Nat.add_assoc]
    exact decodeStruct_fuel_succ _ _ _ _ _ (by omega)

theorem encodeUint_ne_nil (x : Nat) : encodeUint x ≠ [] := by
  unfold encodeUint
  split <;> simp

theorem decodeStruct_terminator (tooBig fuel : Nat) (fieldnum : Int) (rest : Bytes) (v : kv) :
    decodeStruct tooBig (fuel + 1) fieldnum (encodeUint 0 ++ rest) v = .ok v := by
  rw [decodeStruct, decodeUint_encodeUint 0 (by norm_num)]
  have : (encodeUint 0 ++ rest).length ≠ 0 := by
    simp [encodeUint_ne_nil]
  simp [this]

theorem decodeStruct_update (tooBig fuel : Nat) (fieldnum : Int) (field : Nat) (rest : Bytes)
    (v : kv) (h1 : fieldnum < field) (h2 : -1 ≤ fieldnum) (h3 : field < 3) :
    decodeStruct tooBig (fuel + 1) fieldnum (update fieldnum field ++ rest) v =
      if field = 0 then
        match decUint8Slice tooBig rest with
        | .error e => .error e
        | .ok (s, b2) => decodeStruct tooBig fuel field b2 { v with Key := s }
      else if field = 1 then
        match decUint8Slice tooBig rest with
        | .error e => .error e
        | .ok (s, b2) => decodeStruct tooBig fuel field b2 { v with Val := s }
      else
        match decBool rest with
        | .error e => .error e
        | .ok (x, b2) => decodeStruct tooBig fuel field b2 { v with AdvanceEpoch := x } := by
  obtain ⟨d, hd⟩ : ∃ d : Nat, ((field : Int) - fieldnum).toNat = d := ⟨_, rfl⟩
  have hd1 : 0 < d := by omega
  have hd2 : d ≤ 3 := by omega
  have hd3 : fieldnum + (d : Int) = field := by omega
  have h64 : uint64 d = d := Nat.mod_eq_of_lt (by omega)
  have hne : (encodeUint d ++ rest).length ≠ 0 := by
    simp [encodeUint_ne_nil]
  rw [update, hd, h64, decodeStruct, decodeUint_encodeUint d (by omega)]
  simp only [hne, if_false]
  rw [if_neg (by omega), if_neg (by omega), if_neg (by omega)]
  simp only [hd3]
  have hf : ((field : Int) = 0) = (field = 0) := by simp
  have hf1 : ((field : Int) = 1) = (field = 1) := by
    apply propext; constructor <;> intro h <;> omega
  simp only [hf, hf1]

theorem decUint8Slice_encode (tooBig : Nat) (ht : tooBig ≤ 2 ^ 33) (s : ByteSlice)
    (h0 : 0 < s.len) (h1 : s.len < tooBig) (rest : Bytes) :
    decUint8Slice tooBig (encodeUint (uint64 s.len) ++ (s.contents ++ rest))
      = .ok (s.received, rest) := by
  have h64 : uint64 s.len = s.len := Nat.mod_eq_of_lt (by omega)
  rw [h64, decUint8Slice, decodeUint_encodeUint _ (by omega)]
  have hlen : s.contents.length = s.len := rfl
  simp only []
  rw [if_neg (by simp [hlen]; omega), if_neg (by omega)]
  have hr : s.received = some s.contents := by
    unfold ByteSlice.received
    rw [if_neg (by omega)]
  rw [hr, ← hlen]
  simp

theorem decBool_encode (rest : Bytes) :
    decBool (encodeUint 1 ++ rest) = .ok (true, rest) := by
  rw [decBool, decodeUint_encodeUint _ (by norm_num)]
  rfl

theorem received_of_len_zero (s : ByteSlice) (h : ¬ s.len > 0) : s.received = none := by
  unfold ByteSlice.received
  rw [if_pos (by omega)]

theorem decodeStruct_encodeStruct_fuel (tooBig : Nat) (ht : tooBig ≤ 2 ^ 33) (r : kv)
    (hK : r.Key.len < tooBig) (hV : r.Val.len < tooBig) (fuel : Nat) :
    decodeStruct tooBig (fuel + 1 + 1 + 1 + 1) (-1) (encodeStruct r) ⟨none, none, false⟩
      = .ok r.received := by
  obtain ⟨key, val, adv⟩ := r
  simp only at hK hV
  unfold encodeStruct kv.received encUint8Array encBool
  simp only
  by_cases hk : key.len > 0 <;> by_cases hv : val.len > 0 <;> cases adv <;>
    simp only [hk, hv, if_true, if_false, List.append_assoc, List.nil_append, Bool.false_eq_true]
  · rw [decodeStruct_update _ _ (-1) 0 _ _ (by norm_num) (by norm_num) (by norm_num)]
    simp only [if_true, decUint8Slice_encode tooBig ht key hk hK]
    rw [decodeStruct_update _ _ _ 1 _ _ (by norm_num) (by norm_num) (by norm_num)]
    simp only [if_true, decUint8Slice_encode tooBig ht val hv hV, one_ne_zero, if_false]
    rw [← List.append_nil (encodeUint 0), decodeStruct_terminator]
  · rw [decodeStruct_update _ _ (-1) 0 _ _ (by norm_num) (by norm_num) (by norm_num)]
    simp only [if_true, decUint8Slice_encode tooBig ht key hk hK]
    rw [decodeStruct_update _ _ _ 1 _ _ (by norm_num) (by norm_num) (by norm_num)]
    simp only [if_true, decUint8Slice_encode tooBig ht val hv hV, one_ne_zero, if_false]
    rw [decodeStruct_update _ _ _ 2 _ _ (by norm_num) (by norm_num) (by norm_num)]
    simp only [decBool_encode, OfNat.ofNat_ne_zero, OfNat.ofNat_ne_one, if_false]
    rw [← List.append_nil (encodeUint 0), decodeStruct_terminator]
  · rw [received_of_len_zero _ hv]
    rw [decodeStruct_update _ _ (-1) 0 _ _ (by norm_num) (by norm_num) (by norm_num)]
    simp only [if_true, decUint8Slice_encode tooBig ht key hk hK]
    rw [← List.append_nil (encodeUint 0), decodeStruct_terminator]
  · rw [received_of_len_zero _ hv]
    rw [decodeStruct_update _ _ (-1) 0 _ _ (by norm_num) (by norm_num) (by norm_num)]
    simp only [if_true, decUint8Slice_encode tooBig ht key hk hK]
    rw [decodeStruct_update _ _ _ 2 _ _ (by norm_num) (by norm_num) (by norm_num)]
    simp only [decBool_encode, OfNat.ofNat_ne_zero, OfNat.ofNat_ne_one, if_false]
    rw [← List.append_nil (encodeUint 0), decodeStruct_terminator]
  · rw [received_of_len_zero _ hk]
    rw [decodeStruct_update _ _ _ 1 _ _ (by norm_num) (by norm_num) (by norm_num)]
    simp only [if_true, decUint8Slice_encode tooBig ht val hv hV, one_ne_zero, if_false]
    rw [← List.append_nil (encodeUint 0), decodeStruct_terminator]
  · rw [received_of_len_zero _ hk]
    rw [decodeStruct_update _ _ _ 1 _ _ (by norm_num) (by norm_num) (by norm_num)]
    simp only [if_true, decUint8Slice_encode tooBig ht val hv hV, one_ne_zero, if_false]
    rw [decodeStruct_update _ _ _ 2 _ _ (by norm_num) (by norm_num) (by norm_num)]
    simp only [decBool_encode, OfNat.ofNat_ne_zero, OfNat.ofNat_ne_one, if_false]
    rw [← List.append_nil (encodeUint 0), decodeStruct_terminator]
  · rw [received_of_len_zero _ hk, received_of_len_zero _ hv]
    rw [← List.append_nil (encodeUint 0), decodeStruct_terminator]
  · rw [received_of_len_zero _ hk, received_of_len_zero _ hv]
    rw [decodeStruct_update _ _ _ 2 _ _ (by norm_num) (by norm_num) (by norm_num)]
    simp only [decBool_encode, OfNat.ofNat_ne_zero, OfNat.ofNat_ne_one, if_false]
    rw [← List.append_nil (encodeUint 0), decodeStruct_terminator]

theorem decodeStruct_encodeStruct (tooBig : Nat) (ht : tooBig ≤ 2 ^ 33) (r : kv)
    (hK : r.Key.len < tooBig) (hV : r.Val.len < tooBig) :
    decodeStruct tooBig (encodeStruct r).length (-1) (encodeStruct r) ⟨none, none, false⟩
      = .ok r.received := by
  rw [← decodeStruct_fuel_add tooBig 4]
  exact decodeStruct_encodeStruct_fuel tooBig ht r hK hV _

theorem len_le_encodeStruct (r : kv) :
    r.Key.len ≤ (encodeStruct r).length ∧ r.Val.len ≤ (encodeStruct r).length := by
  obtain ⟨key, val, adv⟩ := r
  unfold encodeStruct encUint8Array
  simp only
  have hk : key.contents.length = key.len := rfl
  have hv : val.contents.length = val.len := rfl
  constructor
  · split <;> simp only [List.length_append, hk] <;> omega
  · split <;> split <;> simp only [List.length_append, hv] <;> omega

/-- The gob round trip on `kv`: what `gobEncode` wrote, `gobDecode` reads back,
up to nil for every slice of length 0. -/
theorem gobDecode_gobEncode (kvId tooBig : Nat) (hid : firstUserId ≤ kvId) (hid2 : kvId < 2 ^ 31)
    (ht : tooBig ≤ 2 ^ 33) (r : kv) (bs : Bytes) (h : gobEncode kvId tooBig r = .ok bs) :
    gobDecode tooBig bs = .ok r.received := by
  unfold gobEncode at h
  split at h
  · cases h
  · next descriptor hdesc =>
    split at h
    · cases h
    · next value hval =>
      cases h
      have hlen : (encodeInt kvId ++ encodeStruct r).length < tooBig := by
        unfold writeMessage at hval
        split at hval
        · cases hval
        · omega
      have hle := len_le_encodeStruct r
      simp only [List.length_append] at hlen
      have hpos : 0 < kvId := by unfold firstUserId at hid; omega
      have hneg : ¬ (-(kvId : Int) ≥ 0) := by omega
      have hfu : ¬ ((- -(kvId : Int)).toNat < firstUserId) := by
        rw [neg_neg, Int.toNat_ofNat]; omega
      unfold gobDecode
      rw [recvMessage_writeMessage tooBig ht _ _ _ hdesc]
      simp only
      rw [nextInt_encodeInt_neg kvId hpos (by omega)]
      simp only
      rw [if_neg hneg, if_neg hfu]
      simp only [neg_neg, Int.toNat_ofNat, ne_eq, not_true_eq_false, if_false]
      rw [← List.append_nil value, recvMessage_writeMessage tooBig ht _ _ _ hval]
      simp only
      rw [nextInt_encodeInt_pos kvId (by omega)]
      simp only [if_false]
      exact decodeStruct_encodeStruct tooBig ht r (by omega) (by omega)

/-- A stream that stops inside an unsigned integer is answered with an `io`
end-of-input error. -/
theorem decodeUintReader_truncated (x n : Nat) (hn : n < (encodeUint x).length) :
    decodeUintReader ((encodeUint x).take n) = .error Error.EOF ∨
    decodeUintReader ((encodeUint x).take n) = .error Error.ErrUnexpectedEOF := by
  unfold encodeUint at hn ⊢
  split at hn
  · next h =>
    have : n = 0 := by simpa using hn
    subst this
    left
    simp [decodeUintReader]
  · next h =>
    rw [if_neg h]
    have hlen := uintBytes_length_le uint64Size x
    simp only [uint64Size] at hlen hn ⊢
    generalize uintBytes 8 x = bs at hlen hn
    simp only [List.length_cons] at hn
    cases n with
    | zero =>
      left
      simp [decodeUintReader]
    | succ m =>
      right
      have hc : (256 - bs.length) % 256 = 256 - bs.length := Nat.mod_eq_of_lt (by omega)
      simp only [List.take_succ_cons, decodeUintReader, uint8_toNat, hc, uint64Size]
      rw [if_neg (by omega), if_neg (by omega), if_pos (by simp; omega)]

/-- A stream that stops inside a message is answered with an `io`
end-of-input error. -/
theorem recvMessage_truncated (tooBig : Nat) (ht : tooBig ≤ 2 ^ 33) (message out : Bytes)
    (h : writeMessage tooBig message = .ok out) (n : Nat) (hn : n < out.length) :
    recvMessage tooBig (out.take n) = .error Error.EOF ∨
    recvMessage tooBig (out.take n) = .error Error.ErrUnexpectedEOF := by
  unfold writeMessage at h
  split at h
  · cases h
  · next hlt =>
    have hlt' : message.length < tooBig := by omega
    have h64 : uint64 message.length = message.length := Nat.mod_eq_of_lt (by omega)
    cases h
    rw [h64] at hn ⊢
    rw [List.take_append_eq_append_take]
    by_cases hcase : n < (encodeUint message.length).length
    · have h0 : n - (encodeUint message.length).length = 0 := by omega
      rw [h0, List.take_zero, List.append_nil]
      rcases decodeUintReader_truncated message.length n hcase with h1 | h1
      · left; simp only [recvMessage, h1]
      · right; simp only [recvMessage, h1]
    · right
      rw [List.take_of_length_le (by omega)]
      simp only [List.length_append] at hn
      simp only [recvMessage]
      rw [decodeUintReader_encodeUint _ (by omega)]
      simp only
      rw [if_neg (by omega), if_pos (by simp; omega)]

/-- A truncated record: every proper prefix of the bytes `gobEncode` wrote is
refused by `gobDecode`, with an `io` end-of-input error. -/
theorem gobDecode_truncated (kvId tooBig : Nat) (hid : firstUserId ≤ kvId) (hid2 : kvId < 2 ^ 31)
    (ht : tooBig ≤ 2 ^ 33) (r : kv) (data : Bytes) (h : gobEncode kvId tooBig r = .ok data)
    (n : Nat) (hn : n < data.length) :
    gobDecode tooBig (data.take n) = .error Error.EOF ∨
    gobDecode tooBig (data.take n) = .error Error.ErrUnexpectedEOF := by
  unfold gobEncode at h
  split at h
  · cases h
  · next descriptor hdesc =>
    split at h
    · cases h
    · next value hval =>
      cases h
      rw [List.take_append_eq_append_take]
      by_cases hcase : n < descriptor.length
      · have h0 : n - descriptor.length = 0 := by omega
        rw [h0, List.take_zero, List.append_nil]
        rcases recvMessage_truncated tooBig ht _ _ hdesc n hcase with h1 | h1
        · left; simp only [gobDecode, h1]
        · right; simp only [gobDecode, h1]
      · right
        rw [List.take_of_length_le (by omega)]
        simp only [List.length_append] at hn
        have hpos : 0 < kvId := by unfold firstUserId at hid; omega
        have hneg : ¬ (-(kvId : Int) ≥ 0) := by omega
        have hfu : ¬ ((- -(kvId : Int)).toNat < firstUserId) := by
          rw [neg_neg, Int.toNat_ofNat]; omega
        unfold gobDecode
        rw [recvMessage_writeMessage tooBig ht _ _ _ hdesc]
        simp only
        rw [nextInt_encodeInt_neg kvId hpos (by omega)]
        simp only
        rw [if_neg hneg, if_neg hfu]
        simp only [neg_neg, Int.toNat_ofNat, ne_eq, not_true_eq_false, if_false]
        rcases recvMessage_truncated tooBig ht _ _ hval (n - descriptor.length) (by omega)
          with h1 | h1
        · simp only [h1]
        · simp only [h1]

/-! ## The adapter's control flow, for every `Gob` -/

theorem createdValues_append {Client : Type} (t u : Trace Client) :
    createdValues (t ++ u) = createdValues t ++ createdValues u := by
  induction t with
  | nil => rfl
  | cons e t ih => cases e <;> simp [createdValues, ih]

theorem Enqueue_of_encode_ok {Client W : Type} (g : Gob) (nu : UniqueKV Client W)
    (q : Queue Client) (key value : ByteSlice) (buf : Bytes) (w : W)
    (h : g.Encode ⟨key, value, false⟩ = .ok buf) :
    q.Enqueue g nu key value w = nu q.client q.keyPrefix buf 0 w := by
  simp only [Queue.Enqueue, h, Queue.enqueue]

theorem AdvanceEpoch_of_encode_ok {Client W : Type} (g : Gob) (nu : UniqueKV Client W)
    (q : Queue Client) (buf : Bytes) (w : W)
    (h : g.Encode ⟨none, none, true⟩ = .ok buf) :
    q.AdvanceEpoch g nu w = nu q.client q.keyPrefix buf 0 w := by
  simp only [Queue.AdvanceEpoch, h, Queue.enqueue]

theorem Enqueue_of_encode_error {Client W : Type} (g : Gob) (nu : UniqueKV Client W)
    (q : Queue Client) (key value : ByteSlice) (err : Error) (w : W)
    (h : g.Encode ⟨key, value, false⟩ = .error err) :
    q.Enqueue g nu key value w = (some err, w) := by
  simp only [Queue.Enqueue, h]

theorem AdvanceEpoch_of_encode_error {Client W : Type} (g : Gob) (nu : UniqueKV Client W)
    (q : Queue Client) (err : Error) (w : W)
    (h : g.Encode ⟨none, none, true⟩ = .error err) :
    q.AdvanceEpoch g nu w = (some err, w) := by
  simp only [Queue.AdvanceEpoch, h]

theorem dequeueCallback_of_decode_ok {W : Type} (g : Gob)
    (processFunc : ByteSlice → ByteSlice → Action W) (advanceFunc : Action W)
    (data : Bytes) (r : kv) (w : W) (h : g.Decode data = .ok r) :
    dequeueCallback g processFunc advanceFunc data w
      = if r.AdvanceEpoch then advanceFunc w else processFunc r.Key r.Val w := by
  simp only [dequeueCallback, h]

theorem dequeueCallback_of_decode_error {W : Type} (g : Gob)
    (processFunc : ByteSlice → ByteSlice → Action W) (advanceFunc : Action W)
    (data : Bytes) (err : Error) (w : W) (h : g.Decode data = .error err) :
    dequeueCallback g processFunc advanceFunc data w = (some err, w) := by
  simp only [dequeueCallback, h]

/-- C4: for a queue built by `New client mapID`, an `Enqueue` or `AdvanceEpoch`
whose encoding succeeded with bytes `buf` is exactly one
`NewUniqueKV(client, mapID, buf, 0)`: it has the effect and the result of that
call for every recipe, and with a recording recipe the trace grows by that
one creation and the result is the recipe's answer to it. -/
theorem enqueue_forwards_to_NewUniqueKV {Client W : Type} (g : Gob)
    (NewUniqueKV : UniqueKV Client W) (client : Client) (mapID : String)
    (key value : ByteSlice) (w : W)
    (outcome : Client → String → Bytes → Int → GoError) (t : Trace Client) :
    (∀ buf, g.Encode ⟨key, value, false⟩ = .ok buf →
      (New client mapID).Enqueue g NewUniqueKV key value w = NewUniqueKV client mapID buf 0 w ∧
      (New client mapID).Enqueue g (recordCreate outcome) key value t
        = (outcome client mapID buf 0, t ++ [Event.create client mapID buf 0])) ∧
    (∀ buf, g.Encode ⟨none, none, true⟩ = .ok buf →
      (New client mapID).AdvanceEpoch g NewUniqueKV w = NewUniqueKV client mapID buf 0 w ∧
      (New client mapID).AdvanceEpoch g (recordCreate outcome) t
        = (outcome client mapID buf 0, t ++ [Event.create client mapID buf 0])) := by
  constructor
  · intro buf h
    exact ⟨Enqueue_of_encode_ok g _ _ key value buf w h,
      Enqueue_of_encode_ok g _ _ key value buf t h⟩
  · intro buf h
    exact ⟨AdvanceEpoch_of_encode_ok g _ _ buf w h, AdvanceEpoch_of_encode_ok g _ _ buf t h⟩

/-- C7: when decoding gave the record `r`, the callback is `advanceFunc()` if
`r.AdvanceEpoch` is set and `processFunc(r.Key, r.Val)` otherwise, with that
call's effect and result unchanged; recorded, the trace grows by exactly that
one call; and with the flag set the result does not depend on `r.Key`, `r.Val`. -/
theorem dequeue_dispatches_on_flag {Client W : Type} (g : Gob) (data : Bytes) (r : kv)
    (h : g.Decode data = .ok r)
    (processFunc : ByteSlice → ByteSlice → Action W) (advanceFunc : Action W) (w : W)
    (po : ByteSlice → ByteSlice → GoError) (ao : GoError) (t : Trace Client) :
    dequeueCallback g processFunc advanceFunc data w
      = (if r.AdvanceEpoch then advanceFunc w else processFunc r.Key r.Val w) ∧
    dequeueCallback g (recordProcess po) (recordAdvance ao) data t
      = (if r.AdvanceEpoch then (ao, t ++ [Event.advance])
         else (po r.Key r.Val, t ++ [Event.process r.Key r.Val])) ∧
    (∀ data2 r2, g.Decode data2 = .ok r2 → r.AdvanceEpoch = true → r2.AdvanceEpoch = true →
      dequeueCallback g processFunc advanceFunc data2 w
        = dequeueCallback g processFunc advanceFunc data w) := by
  refine ⟨dequeueCallback_of_decode_ok g _ _ data r w h, ?_, ?_⟩
  · rw [dequeueCallback_of_decode_ok g _ _ data r t h]
    rfl
  · intro data2 r2 h2 hr hr2
    rw [dequeueCallback_of_decode_ok g _ _ data r w h,
      dequeueCallback_of_decode_ok g _ _ data2 r2 w h2, hr, hr2]
    rfl

/-- C5: when decoding `data` fails with `err`, the callback returns `err` and
leaves the world as it was: neither `processFunc` nor `advanceFunc` runs
(recorded, the trace does not grow). On the gob model the empty sequence and
every truncated record (a proper prefix of what `Enqueue` or `AdvanceEpoch`
wrote) are such data. -/
theorem decode_error_skips_callbacks {Client W : Type} (g : Gob) (data : Bytes) (err : Error)
    (h : g.Decode data = .error err)
    (processFunc : ByteSlice → ByteSlice → Action W) (advanceFunc : Action W) (w : W)
    (po : ByteSlice → ByteSlice → GoError) (ao : GoError) (t : Trace Client) :
    dequeueCallback g processFunc advanceFunc data w = (some err, w) ∧
    dequeueCallback g (recordProcess po) (recordAdvance ao) data t = (some err, t) ∧
    (∀ kvId tooBig : Nat,
      dequeueCallback (gob kvId tooBig) processFunc advanceFunc [] w = (some Error.EOF, w)) ∧
    (∀ (kvId tooBig : Nat) (r : kv) (full : Bytes) (n : Nat), firstUserId ≤ kvId →
      kvId < 2 ^ 31 → tooBig ≤ 2 ^ 33 → (gob kvId tooBig).Encode r = .ok full →
      n < full.length →
      ∃ e, (gob kvId tooBig).Decode (full.take n) = .error e ∧
        dequeueCallback (gob kvId tooBig) processFunc advanceFunc (full.take n) w
          = (some e, w)) := by
  refine ⟨dequeueCallback_of_decode_error g _ _ data err w h,
    dequeueCallback_of_decode_error g _ _ data err t h, ?_, ?_⟩
  · intro kvId tooBig
    exact dequeueCallback_of_decode_error _ _ _ [] Error.EOF w rfl
  · intro kvId tooBig r full n hid hid2 ht he hn
    rcases gobDecode_truncated kvId tooBig hid hid2 ht r full he n hn with h1 | h1
    · exact ⟨_, h1, dequeueCallback_of_decode_error _ _ _ _ _ w h1⟩
    · exact ⟨_, h1, dequeueCallback_of_decode_error _ _ _ _ _ w h1⟩

/-! ## The bytes on the wire -/

/-- The bytes a recorded `Enqueue` handed to the store are what `Encode` gave. -/
theorem encode_of_Enqueue_created {Client : Type} (g : Gob) (q : Queue Client)
    (outcome : Client → String → Bytes → Int → GoError) (key value : ByteSlice) (data : Bytes)
    (h : createdValues (q.Enqueue g (recordCreate outcome) key value []).2 = [data]) :
    g.Encode ⟨key, value, false⟩ = .ok data := by
  cases he : g.Encode ⟨key, value, false⟩ with
  | error e =>
    rw [Enqueue_of_encode_error g _ q key value e [] he] at h
    simp [createdValues] at h
  | ok buf =>
    rw [Enqueue_of_encode_ok g _ q key value buf [] he] at h
    simp [recordCreate, createdValues] at h
    rw [h]

/-- The bytes a recorded `AdvanceEpoch` handed to the store are what `Encode` gave. -/
theorem encode_of_AdvanceEpoch_created {Client : Type} (g : Gob) (q : Queue Client)
    (outcome : Client → String → Bytes → Int → GoError) (data : Bytes)
    (h : createdValues (q.AdvanceEpoch g (recordCreate outcome) []).2 = [data]) :
    g.Encode ⟨none, none, true⟩ = .ok data := by
  cases he : g.Encode ⟨none, none, true⟩ with
  | error e =>
    rw [AdvanceEpoch_of_encode_error g _ q e [] he] at h
    simp [createdValues] at h
  | ok buf =>
    rw [AdvanceEpoch_of_encode_ok g _ q buf [] he] at h
    simp [recordCreate, createdValues] at h
    rw [h]

/-- C2: the bytes `data` that `Enqueue(key, value)` hands to the store decode
without error; the callback is one `processFunc` call, on a key and a value
with the bytes of `key` and `value` (nil when these are empty), and
`advanceFunc` does not run. -/
theorem enqueue_dequeue_round_trip {Client W : Type} (kvId tooBig : Nat)
    (hid : firstUserId ≤ kvId) (hid2 : kvId < 2 ^ 31) (ht : tooBig ≤ 2 ^ 33)
    (q : Queue Client) (outcome : Client → String → Bytes → Int → GoError)
    (key value : ByteSlice) (data : Bytes)
    (h : createdValues (q.Enqueue (gob kvId tooBig) (recordCreate outcome) key value []).2
      = [data])
    (processFunc : ByteSlice → ByteSlice → Action W) (advanceFunc : Action W) (w : W)
    (po : ByteSlice → ByteSlice → GoError) (ao : GoError) (t : Trace Client) :
    (gob kvId tooBig).Decode data = .ok ⟨key.received, value.received, false⟩ ∧
    key.received.contents = key.contents ∧ value.received.contents = value.contents ∧
    dequeueCallback (gob kvId tooBig) processFunc advanceFunc data w
      = processFunc key.received value.received w ∧
    dequeueCallback (gob kvId tooBig) (recordProcess po) (recordAdvance ao) data t
      = (po key.received value.received,
          t ++ [Event.process key.received value.received]) := by
  have he := encode_of_Enqueue_created _ q outcome key value data h
  have hd : (gob kvId tooBig).Decode data = .ok ⟨key.received, value.received, false⟩ :=
    gobDecode_gobEncode kvId tooBig hid hid2 ht _ data he
  refine ⟨hd, contents_received key, contents_received value, ?_, ?_⟩
  · rw [dequeueCallback_of_decode_ok _ _ _ data _ w hd]
    rfl
  · rw [dequeueCallback_of_decode_ok _ _ _ data _ t hd]
    rfl

/-- C3: the bytes `data` that `AdvanceEpoch()` hands to the store decode
without error, to the record with only the flag set; the callback is one
`advanceFunc` call and `processFunc` does not run. -/
theorem advanceEpoch_dequeue_round_trip {Client W : Type} (kvId tooBig : Nat)
    (hid : firstUserId ≤ kvId) (hid2 : kvId < 2 ^ 31) (ht : tooBig ≤ 2 ^ 33)
    (q : Queue Client) (outcome : Client → String → Bytes → Int → GoError) (data : Bytes)
    (h : createdValues (q.AdvanceEpoch (gob kvId tooBig) (recordCreate outcome) []).2 = [data])
    (processFunc : ByteSlice → ByteSlice → Action W) (advanceFunc : Action W) (w : W)
    (po : ByteSlice → ByteSlice → GoError) (ao : GoError) (t : Trace Client) :
    (gob kvId tooBig).Decode data = .ok ⟨none, none, true⟩ ∧
    dequeueCallback (gob kvId tooBig) processFunc advanceFunc data w = advanceFunc w ∧
    dequeueCallback (gob kvId tooBig) (recordProcess po) (recordAdvance ao) data t
      = (ao, t ++ [Event.advance]) := by
  have he := encode_of_AdvanceEpoch_created _ q outcome data h
  have hd : (gob kvId tooBig).Decode data = .ok ⟨none, none, true⟩ :=
    gobDecode_gobEncode kvId tooBig hid hid2 ht _ data he
  refine ⟨hd, ?_, ?_⟩
  · rw [dequeueCallback_of_decode_ok _ _ _ data _ w hd]
    rfl
  · rw [dequeueCallback_of_decode_ok _ _ _ data _ t hd]
    rfl

/-- C8: two `Enqueue` calls that hand the same bytes to the store had keys with
the same bytes and values with the same bytes, and no `AdvanceEpoch` hands
the store those bytes. -/
theorem enqueue_bytes_injective {Client : Type} (kvId tooBig : Nat)
    (hid : firstUserId ≤ kvId) (hid2 : kvId < 2 ^ 31) (ht : tooBig ≤ 2 ^ 33)
    (q1 q2 q3 : Queue Client) (o1 o2 o3 : Client → String → Bytes → Int → GoError)
    (k1 v1 k2 v2 : ByteSlice) (data : Bytes)
    (h1 : createdValues (q1.Enqueue (gob kvId tooBig) (recordCreate o1) k1 v1 []).2 = [data])
    (h2 : createdValues (q2.Enqueue (gob kvId tooBig) (recordCreate o2) k2 v2 []).2 = [data]) :
    k1.contents = k2.contents ∧ v1.contents = v2.contents ∧
    createdValues (q3.AdvanceEpoch (gob kvId tooBig) (recordCreate o3) []).2 ≠ [data] := by
  have he1 := encode_of_Enqueue_created _ q1 o1 k1 v1 data h1
  have he2 := encode_of_Enqueue_created _ q2 o2 k2 v2 data h2
  have hd1 := gobDecode_gobEncode kvId tooBig hid hid2 ht _ data he1
  have hd2 := gobDecode_gobEncode kvId tooBig hid hid2 ht _ data he2
  rw [hd1] at hd2
  injection hd2 with hd2
  simp only [kv.received, kv.mk.injEq] at hd2
  refine ⟨?_, ?_, ?_⟩
  · rw [← contents_received k1, ← contents_received k2, hd2.1]
  · rw [← contents_received v1, ← contents_received v2, hd2.2.1]
  · intro h3
    have he3 := encode_of_AdvanceEpoch_created _ q3 o3 data h3
    have hd3 := gobDecode_gobEncode kvId tooBig hid hid2 ht _ data he3
    rw [hd1] at hd3
    injection hd3 with hd3
    simp [kv.received] at hd3

/-- C10: the bytes `Enqueue(key, value)` hands to the store are a function of
`key` and `value` alone: one list `handed` (empty when encoding fails) is what
every queue, with any client, key prefix, recipe answers and earlier trace,
adds to the values created; likewise one list for every `AdvanceEpoch()`. For
the gob model they are one byte sequence fixed by `key`, `value` and the
process-wide parameters of gob. -/
theorem enqueue_bytes_depend_on_arguments_only (g : Gob) (key value : ByteSlice) :
    (∃ handed : List Bytes, ∀ (Client : Type) (q : Queue Client)
        (outcome : Client → String → Bytes → Int → GoError) (t : Trace Client),
        createdValues (q.Enqueue g (recordCreate outcome) key value t).2
          = createdValues t ++ handed) ∧
    (∃ handed : List Bytes, ∀ (Client : Type) (q : Queue Client)
        (outcome : Client → String → Bytes → Int → GoError) (t : Trace Client),
        createdValues (q.AdvanceEpoch g (recordCreate outcome) t).2
          = createdValues t ++ handed) ∧
    (∀ (kvId tooBig : Nat) (Client : Type) (q : Queue Client)
        (outcome : Client → String → Bytes → Int → GoError) (t : Trace Client),
        (∀ data, gobEncode kvId tooBig ⟨key, value, false⟩ = .ok data →
          createdValues (q.Enqueue (gob kvId tooBig) (recordCreate outcome) key value t).2
            = createdValues t ++ [data]) ∧
        (∀ data, gobEncode kvId tooBig ⟨none, none, true⟩ = .ok data →
          createdValues (q.AdvanceEpoch (gob kvId tooBig) (recordCreate outcome) t).2
            = createdValues t ++ [data])) := by
  refine ⟨?_, ?_, ?_⟩
  · cases he : g.Encode ⟨key, value, false⟩ with
    | error e =>
      refine ⟨[], fun Client q outcome t => ?_⟩
      rw [Enqueue_of_encode_error g _ q key value e t he]
      simp
    | ok buf =>
      refine ⟨[buf], fun Client q outcome t => ?_⟩
      rw [Enqueue_of_encode_ok g _ q key value buf t he]
      simp [recordCreate, createdValues_append, createdValues]
  · cases he : g.Encode ⟨none, none, true⟩ with
    | error e =>
      refine ⟨[], fun Client q outcome t => ?_⟩
      rw [AdvanceEpoch_of_encode_error g _ q e t he]
      simp
    | ok buf =>
      refine ⟨[buf], fun Client q outcome t => ?_⟩
      rw [AdvanceEpoch_of_encode_ok g _ q buf t he]
      simp [recordCreate, createdValues_append, createdValues]
  · intro kvId tooBig Client q outcome t
    constructor
    · intro data he
      rw [Enqueue_of_encode_ok (gob kvId tooBig) _ q key value data t he]
      simp [recordCreate, createdValues_append, createdValues]
    · intro data he
      rw [AdvanceEpoch_of_encode_ok (gob kvId tooBig) _ q data t he]
      simp [recordCreate, createdValues_append, createdValues]

/-! ## When encoding fails -/

theorem encodeUint_length_le (x : Nat) : (encodeUint x).length ≤ 9 := by
  unfold encodeUint
  split
  · simp
  · have := uintBytes_length_le uint64Size x
    simp only [uint64Size] at this ⊢
    simp only [List.length_cons]
    omega

theorem encodeInt_length_le (i : Int) : (encodeInt i).length ≤ 9 := by
  unfold encodeInt
  split <;> exact encodeUint_length_le _

theorem kvWireType_length (id : Nat) : (kvWireType id).length = 45 + (encodeInt id).length := by
  have h1 : encodeString "kv" = [2, 0x6b, 0x76] := by decide
  have h2 : (encodeUint (0 + 1 + 1 + 1)).length = 1 := by decide
  have h3 : ([("Key", tBytes), ("Val", tBytes), ("AdvanceEpoch", tBool)].map
      (fun f => encodeFieldType f.1 f.2)).flatten.length = 33 := by decide
  unfold kvWireType structWireType
  simp only [List.length_append, h1, h2, h3, List.length_cons, List.length_nil]
  omega

theorem update_length (fieldnum : Int) (field : Nat) (h1 : -1 ≤ fieldnum) (h2 : fieldnum < field)
    (h3 : field < 3) : (update fieldnum field).length = 1 := by
  obtain ⟨d, hd⟩ : ∃ d : Nat, ((field : Int) - fieldnum).toNat = d := ⟨_, rfl⟩
  have h64 : uint64 d = d := Nat.mod_eq_of_lt (by omega)
  rw [update, hd, h64, encodeUint, if_pos (by omega)]
  rfl

theorem encodeStruct_length_le (r : kv) :
    (encodeStruct r).length ≤ r.Key.len + r.Val.len + 23 := by
  obtain ⟨key, val, adv⟩ := r
  have hk : key.contents.length = key.len := rfl
  have hv : val.contents.length = val.len := rfl
  have e0 : (encodeUint 0).length = 1 := by decide
  have e1 : (encodeUint 1).length = 1 := by decide
  have uk := encodeUint_length_le (uint64 key.len)
  have uv := encodeUint_length_le (uint64 val.len)
  unfold encodeStruct encUint8Array encBool
  simp only
  by_cases hkp : key.len > 0 <;> by_cases hvp : val.len > 0 <;> cases adv <;>
    simp only [hkp, hvp, if_true, if_false, Bool.false_eq_true, List.length_append,
      List.length_nil, hk, hv, e0, e1] <;>
    (try rw [update_length _ 0 (by norm_num) (by norm_num) (by norm_num)]) <;>
    (try rw [update_length _ 1 (by norm_num) (by norm_num) (by norm_num)]) <;>
    (try rw [update_length _ 2 (by norm_num) (by norm_num) (by norm_num)]) <;>
    omega

theorem len_some (bs : Bytes) : ByteSlice.len (some bs) = bs.length := rfl

theorem writeMessage_ok (tooBig : Nat) (message : Bytes) (h : message.length < tooBig) :
    writeMessage tooBig message = .ok (encodeUint (uint64 message.length) ++ message) := by
  unfold writeMessage
  rw [if_neg (by omega)]

theorem writeMessage_error (tooBig : Nat) (message : Bytes) (h : tooBig ≤ message.length) :
    writeMessage tooBig message = .error (Error.gob "gob: encoder: message too big") := by
  unfold writeMessage
  rw [if_pos (by omega)]

/-- A record whose slices leave 64 bytes of room under the bound is encoded. -/
theorem gobEncode_ok (kvId tooBig : Nat) (r : kv) (h : r.Key.len + r.Val.len + 64 ≤ tooBig) :
    ∃ data, gobEncode kvId tooBig r = .ok data := by
  have h1 := encodeInt_length_le (-(kvId : Int))
  have h2 := encodeInt_length_le (kvId : Int)
  have h3 := kvWireType_length kvId
  have h4 := encodeStruct_length_le r
  unfold gobEncode
  rw [writeMessage_ok tooBig _ (by simp only [List.length_append]; omega)]
  simp only
  rw [writeMessage_ok tooBig _ (by simp only [List.length_append]; omega)]
  exact ⟨_, rfl⟩

/-- A record with a slice as long as the bound is refused. -/
theorem gobEncode_error (kvId tooBig : Nat) (key value : ByteSlice) (adv : Bool)
    (h : tooBig ≤ key.len ∨ tooBig ≤ value.len) :
    gobEncode kvId tooBig ⟨key, value, adv⟩
      = .error (Error.gob "gob: encoder: message too big") := by
  have hle := len_le_encodeStruct ⟨key, value, adv⟩
  simp only at hle
  have hbig : tooBig ≤ (encodeInt kvId ++ encodeStruct ⟨key, value, adv⟩).length := by
    simp only [List.length_append]
    omega
  unfold gobEncode
  split
  · next e he =>
    unfold writeMessage at he
    split at he
    · cases he; rfl
    · cases he
  · rw [writeMessage_error tooBig _ hbig]

/-- C9, as amended: when encoding fails, `Enqueue` and `AdvanceEpoch` return
the encoding error and create nothing (the world is as it was; recorded, the
trace does not grow). For `kv` on the gob model, encoding succeeds whenever
`len(key) + len(value) + 64` is within the message size bound, and always for
the record of `AdvanceEpoch` under a bound of 64 or more; it fails when the
key or the value is as long as the bound. -/
theorem failed_encoding_leaves_store {Client W : Type} (g : Gob)
    (NewUniqueKV : UniqueKV Client W) (q : Queue Client) (key value : ByteSlice) (w : W)
    (outcome : Client → String → Bytes → Int → GoError) (t : Trace Client)
    (kvId tooBig : Nat) :
    (∀ err, g.Encode ⟨key, value, false⟩ = .error err →
      q.Enqueue g NewUniqueKV key value w = (some err, w) ∧
      q.Enqueue g (recordCreate outcome) key value t = (some err, t)) ∧
    (∀ err, g.Encode ⟨none, none, true⟩ = .error err →
      q.AdvanceEpoch g NewUniqueKV w = (some err, w) ∧
      q.AdvanceEpoch g (recordCreate outcome) t = (some err, t)) ∧
    (key.len + value.len + 64 ≤ tooBig →
      ∃ data, (gob kvId tooBig).Encode ⟨key, value, false⟩ = .ok data) ∧
    (64 ≤ tooBig → ∃ data, (gob kvId tooBig).Encode ⟨none, none, true⟩ = .ok data) ∧
    (tooBig ≤ key.len ∨ tooBig ≤ value.len →
      (gob kvId tooBig).Encode ⟨key, value, false⟩
        = .error (Error.gob "gob: encoder: message too big")) := by
  refine ⟨?_, ?_, ?_, ?_, ?_⟩
  · intro err h
    exact ⟨Enqueue_of_encode_error g _ q key value err w h,
      Enqueue_of_encode_error g _ q key value err t h⟩
  · intro err h
    exact ⟨AdvanceEpoch_of_encode_error g _ q err w h, AdvanceEpoch_of_encode_error g _ q err t h⟩
  · intro h
    exact gobEncode_ok kvId tooBig ⟨key, value, false⟩ h
  · intro h
    exact gobEncode_ok kvId tooBig ⟨none, none, true⟩ (by
      show 0 + 0 + 64 ≤ tooBig
      omega)
  · intro h
    exact gobEncode_error kvId tooBig key value false h

/-- C9, as stated, fails: with the bound of a 64-bit target and a key of
`1 << 33` bytes the encoding step of `Enqueue` fails; the call returns the
encoder's error and creates nothing. -/
theorem enqueue_encoding_fails_on_huge_key :
    (New (0 : Nat) "map").Enqueue (gob 65 (2 ^ 33)) (recordCreate fun _ _ _ _ => none)
        (some (List.replicate (2 ^ 33) 0)) none []
      = (some (Error.gob "gob: encoder: message too big"), []) := by
  have hkey : ∀ key : ByteSlice, 2 ^ 33 ≤ key.len →
      (New (0 : Nat) "map").Enqueue (gob 65 (2 ^ 33)) (recordCreate fun _ _ _ _ => none)
        key none [] = (some (Error.gob "gob: encoder: message too big"), []) :=
    fun key h => Enqueue_of_encode_error _ _ _ _ _ _ _
      (gobEncode_error 65 (2 ^ 33) key none false (Or.inl h))
  have hlen : ∀ n : Nat, n ≤ ByteSlice.len (some (List.replicate n (0 : Byte))) :=
    fun n => le_of_eq (by rw [len_some, List.length_replicate])
  exact hkey _ (hlen _)

/-! ## The store model: order of delivery -/

theorem takeFirst_append {keyPrefix : String} (store : List Record) (val : Bytes)
    (rest : List Record) (h : takeFirst keyPrefix store = none) :
    takeFirst keyPrefix (store ++ ⟨keyPrefix, val⟩ :: rest) = some (val, store ++ rest) := by
  induction store with
  | nil => simp [takeFirst]
  | cons r rs ih =>
    unfold takeFirst at h
    split at h
    · cases h
    · next hne =>
      split at h
      · next hn =>
        rw [List.cons_append, takeFirst, if_neg hne, ih hn]
        rfl
      · cases h

/-- A `Dequeue` on the store model whose oldest record under the prefix is
`val`: the callback runs on `val`. -/
theorem Dequeue_of_takeFirst {Client W : Type} (g : Gob) (q : Queue Client)
    (processFunc : ByteSlice → ByteSlice → Action W) (advanceFunc : Action W)
    (s : StoreWorld W) (val : Bytes) (rest : List Record)
    (h : takeFirst q.keyPrefix s.1 = some (val, rest)) :
    q.Dequeue g storeDequeue processFunc advanceFunc s =
      some ((dequeueCallback g processFunc advanceFunc val s.2).1,
        (rest, (dequeueCallback g processFunc advanceFunc val s.2).2)) := by
  simp only [Queue.Dequeue, storeDequeue, h]

theorem Dequeue_of_takeFirst_none {Client W : Type} (g : Gob) (q : Queue Client)
    (processFunc : ByteSlice → ByteSlice → Action W) (advanceFunc : Action W)
    (s : StoreWorld W) (h : takeFirst q.keyPrefix s.1 = none) :
    q.Dequeue g storeDequeue processFunc advanceFunc s = none := by
  simp only [Queue.Dequeue, storeDequeue, h]

/-- On the store model every `Enqueue` that returned nil appended the encoding
of its record under the queue's prefix, and nothing else changed. -/
theorem enqueueAll_ok {Client W : Type} (g : Gob) (q : Queue Client)
    (kvs : List (ByteSlice × ByteSlice)) (store : List Record) (w : W)
    (h : ∀ e ∈ (enqueueAll g q kvs (store, w)).1, e = none) :
    ∃ bufs : List Bytes,
      List.Forall₂ (fun p b => g.Encode ⟨p.1, p.2, false⟩ = .ok b) kvs bufs ∧
      (enqueueAll g q kvs (store, w)).2
        = (store ++ bufs.map (fun b => ⟨q.keyPrefix, b⟩), w) := by
  induction kvs generalizing store with
  | nil => exact ⟨[], List.Forall₂.nil, by simp [enqueueAll]⟩
  | cons p ps ih =>
    obtain ⟨key, value⟩ := p
    cases he : g.Encode ⟨key, value, false⟩ with
    | error e =>
      have := h (some e) (by
        simp only [enqueueAll, Enqueue_of_encode_error g _ q key value e (store, w) he]
        exact List.mem_cons_self _ _)
      cases this
    | ok buf =>
      have hstep : q.Enqueue g storeNewUniqueKV key value (store, w)
          = (none, (store ++ [⟨q.keyPrefix, buf⟩], w)) := by
        rw [Enqueue_of_encode_ok g _ q key value buf (store, w) he]
        rfl
      simp only [enqueueAll, hstep] at h ⊢
      obtain ⟨bufs, hall, hst⟩ := ih (store ++ [⟨q.keyPrefix, buf⟩]) (fun e he' =>
        h e (List.mem_cons_of_mem _ he'))
      refine ⟨buf :: bufs, List.Forall₂.cons he hall, ?_⟩
      rw [hst]
      simp

/-- On the store model, with the encodings `bufs` of `kvs` queued behind a
store that holds nothing under the prefix, `kvs.length` successive `Dequeue`
calls run `processFunc` on the records of `kvs`, in order, and return its
errors. -/
theorem dequeueTimes_encoded {Client : Type} (kvId tooBig : Nat)
    (hid : firstUserId ≤ kvId) (hid2 : kvId < 2 ^ 31) (ht : tooBig ≤ 2 ^ 33)
    (q : Queue Client) (po : ByteSlice → ByteSlice → GoError) (ao : GoError)
    (store : List Record) (hempty : takeFirst q.keyPrefix store = none)
    (kvs : List (ByteSlice × ByteSlice)) (bufs : List Bytes)
    (hall : List.Forall₂ (fun p b => (gob kvId tooBig).Encode ⟨p.1, p.2, false⟩ = .ok b) kvs bufs)
    (t : Trace Client) :
    dequeueTimes (gob kvId tooBig) q (recordProcess po) (recordAdvance ao)
        kvs.length (store ++ bufs.map (fun b => ⟨q.keyPrefix, b⟩), t)
      = some (kvs.map (fun p => po p.1.received p.2.received),
          (store, t ++ kvs.map (fun p => Event.process p.1.received p.2.received))) := by
  induction hall generalizing t with
  | nil => simp [dequeueTimes]
  | @cons p b ps bs hp _ ih =>
    have hd : (gob kvId tooBig).Decode b = .ok ⟨p.1.received, p.2.received, false⟩ :=
      gobDecode_gobEncode kvId tooBig hid hid2 ht _ b hp
    have hcb : dequeueCallback (gob kvId tooBig) (recordProcess po) (recordAdvance ao) b t
        = (po p.1.received p.2.received, t ++ [Event.process p.1.received p.2.received]) := by
      rw [dequeueCallback_of_decode_ok _ _ _ b _ t hd]
      rfl
    have htf := takeFirst_append store b (bs.map (fun b => ⟨q.keyPrefix, b⟩)) hempty
    simp only [List.length_cons, List.map_cons, dequeueTimes]
    rw [Dequeue_of_takeFirst _ q _ _ _ b _ htf]
    simp only [hcb, ih, List.append_assoc, List.singleton_append]

/-- After `n` calls that returned, one more call that blocks makes `n + 1`
calls block. -/
theorem dequeueTimes_succ_none {Client W : Type} (g : Gob) (q : Queue Client)
    (processFunc : ByteSlice → ByteSlice → Action W) (advanceFunc : Action W) (n : Nat)
    (s s1 : StoreWorld W) (errs : List GoError)
    (h : dequeueTimes g q processFunc advanceFunc n s = some (errs, s1))
    (hb : q.Dequeue g storeDequeue processFunc advanceFunc s1 = none) :
    dequeueTimes g q processFunc advanceFunc (n + 1) s = none := by
  induction n generalizing s errs with
  | zero =>
    simp only [dequeueTimes, Option.some.injEq, Prod.mk.injEq] at h
    obtain ⟨_, rfl⟩ := h
    simp only [dequeueTimes, hb]
  | succ m ih =>
    rw [dequeueTimes] at h ⊢
    split at h
    · cases h
    · next err s2 hs2 =>
      split at h
      · cases h
      · next errs2 s3 hs3 =>
        have h3 : s3 = s1 := by
          simp only [Option.some.injEq, Prod.mk.injEq] at h
          exact h.2
        rw [ih s2 errs2 (by rw [hs3, h3])]

/-- C1: on the store model (records in creation order, `Dequeue` taking the
oldest record under the queue's prefix), after `Enqueue(k1, v1)`, ...,
`Enqueue(kn, vn)` all returned nil on a queue that held nothing, `n`
successive `Dequeue` calls all return, run `processFunc` exactly on
`(k1, v1)`, ..., `(kn, vn)` in that order (each key and value with the bytes
enqueued, nil when empty) and return its errors, never run `advanceFunc`, and
leave the queue as it was, so that one more `Dequeue` blocks. -/
theorem dequeue_fifo_order {Client : Type} (kvId tooBig : Nat)
    (hid : firstUserId ≤ kvId) (hid2 : kvId < 2 ^ 31) (ht : tooBig ≤ 2 ^ 33)
    (q : Queue Client) (po : ByteSlice → ByteSlice → GoError) (ao : GoError)
    (store : List Record) (t : Trace Client) (kvs : List (ByteSlice × ByteSlice))
    (hempty : takeFirst q.keyPrefix store = none)
    (hok : ∀ e ∈ (enqueueAll (gob kvId tooBig) q kvs (store, t)).1, e = none) :
    dequeueTimes (gob kvId tooBig) q (recordProcess po) (recordAdvance ao)
        kvs.length (enqueueAll (gob kvId tooBig) q kvs (store, t)).2
      = some (kvs.map (fun p => po p.1.received p.2.received),
          (store, t ++ kvs.map (fun p => Event.process p.1.received p.2.received))) ∧
    (∀ p ∈ kvs, p.1.received.contents = p.1.contents ∧ p.2.received.contents = p.2.contents) ∧
    dequeueTimes (gob kvId tooBig) q (recordProcess po) (recordAdvance ao)
        (kvs.length + 1) (enqueueAll (gob kvId tooBig) q kvs (store, t)).2 = none := by
  obtain ⟨bufs, hall, hst⟩ := enqueueAll_ok (gob kvId tooBig) q kvs store t hok
  have hrun := dequeueTimes_encoded kvId tooBig hid hid2 ht q po ao store hempty kvs bufs hall t
  refine ⟨?_, ?_, ?_⟩
  · rw [hst]
    exact hrun
  · intro p _
    exact ⟨contents_received p.1, contents_received p.2⟩
  · rw [hst]
    exact dequeueTimes_succ_none _ q _ _ _ _ _ _ hrun
      (Dequeue_of_takeFirst_none _ q _ _ _ hempty)

/-- A writer's call only appends to the store; the callbacks' world stays. -/
theorem WriterCall_run_world {Client W : Type} (g : Gob) (c : WriterCall Client)
    (s : StoreWorld W) : ∃ extra, (c.run g s).2 = (s.1 ++ extra, s.2) := by
  obtain ⟨store, w⟩ := s
  cases c with
  | Enqueue q key value =>
    cases he : g.Encode ⟨key, value, false⟩ with
    | error e =>
      refine ⟨[], ?_⟩
      simp only [WriterCall.run, Enqueue_of_encode_error g _ q key value e (store, w) he,
        List.append_nil]
    | ok buf =>
      refine ⟨[⟨q.keyPrefix, buf⟩], ?_⟩
      simp only [WriterCall.run, Enqueue_of_encode_ok g _ q key value buf (store, w) he,
        storeNewUniqueKV]
  | AdvanceEpoch q =>
    cases he : g.Encode ⟨none, none, true⟩ with
    | error e =>
      refine ⟨[], ?_⟩
      simp only [WriterCall.run, AdvanceEpoch_of_encode_error g _ q e (store, w) he,
        List.append_nil]
    | ok buf =>
      refine ⟨[⟨q.keyPrefix, buf⟩], ?_⟩
      simp only [WriterCall.run, AdvanceEpoch_of_encode_ok g _ q buf (store, w) he,
        storeNewUniqueKV]

theorem runWriters_world {Client W : Type} (g : Gob) (ws : List (WriterCall Client))
    (s : StoreWorld W) : ∃ extra, runWriters g ws s = (s.1 ++ extra, s.2) := by
  induction ws generalizing s with
  | nil => exact ⟨[], by simp [runWriters]⟩
  | cons c cs ih =>
    obtain ⟨e1, h1⟩ := WriterCall_run_world g c s
    obtain ⟨e2, h2⟩ := ih (c.run g s).2
    refine ⟨e1 ++ e2, ?_⟩
    rw [runWriters, h2, h1, List.append_assoc]

/-- A store with nothing under the prefix had nothing under it earlier. -/
theorem takeFirst_none_of_append {keyPrefix : String} (store more : List Record)
    (h : takeFirst keyPrefix (store ++ more) = none) : takeFirst keyPrefix store = none := by
  induction store with
  | nil => rfl
  | cons r rs ih =>
    rw [List.cons_append, takeFirst] at h
    rw [takeFirst]
    split
    · next heq => rw [if_pos heq] at h; cases h
    · next hne =>
      rw [if_neg hne] at h
      split at h
      · next hn => rw [ih hn]
      · cases h

/-- While the writers create nothing under the prefix, the `Dequeue` call goes
on blocking, and what follows sees the world the writers left. -/
theorem dequeueDuring_blocked {Client W : Type} (g : Gob) (q : Queue Client)
    (processFunc : ByteSlice → ByteSlice → Action W) (advanceFunc : Action W)
    (ws vs : List (WriterCall Client)) (s : StoreWorld W)
    (h : takeFirst q.keyPrefix (runWriters g ws s).1 = none) :
    dequeueDuring g q processFunc advanceFunc (ws ++ vs) s
      = dequeueDuring g q processFunc advanceFunc vs (runWriters g ws s) := by
  induction ws generalizing s with
  | nil => rfl
  | cons c cs ih =>
    have hs : takeFirst q.keyPrefix s.1 = none := by
      obtain ⟨extra, he⟩ := runWriters_world g (c :: cs) s
      rw [he] at h
      exact takeFirst_none_of_append _ _ h
    rw [List.cons_append, dequeueDuring, Dequeue_of_takeFirst_none g q _ _ s hs]
    exact ih (c.run g s).2 h

/-- C6: on the store model, one `Dequeue` call on the queue `q`, started while
no record lies under the prefix of `q`, with the writers making calls
meanwhile. As long as the writers' calls `before` have created nothing under
the prefix, the call has not returned and no callback has run (the callbacks'
world is the one the call started in). When the next writer's call is a
successful `Enqueue(key, value)` or `AdvanceEpoch()` under the prefix, that
same `Dequeue` call returns: it has run the callback of that record once,
`processFunc` on the key and value enqueued or `advanceFunc`, on the world it
started in, and returns that callback's error; the record has left the
store, and the writers' later calls `after` do not change the result. -/
theorem dequeue_blocks_until_record {Client W : Type} (kvId tooBig : Nat)
    (hid : firstUserId ≤ kvId) (hid2 : kvId < 2 ^ 31) (ht : tooBig ≤ 2 ^ 33)
    (q : Queue Client) (processFunc : ByteSlice → ByteSlice → Action W)
    (advanceFunc : Action W) (s : StoreWorld W) (before after : List (WriterCall Client))
    (hempty : takeFirst q.keyPrefix (runWriters (gob kvId tooBig) before s).1 = none) :
    dequeueDuring (gob kvId tooBig) q processFunc advanceFunc before s
      = (none, runWriters (gob kvId tooBig) before s) ∧
    (dequeueDuring (gob kvId tooBig) q processFunc advanceFunc before s).2.2 = s.2 ∧
    (∀ (q1 : Queue Client) (key value : ByteSlice), q1.keyPrefix = q.keyPrefix →
      ((WriterCall.Enqueue q1 key value).run (gob kvId tooBig)
        (runWriters (gob kvId tooBig) before s)).1 = none →
      dequeueDuring (gob kvId tooBig) q processFunc advanceFunc
          (before ++ WriterCall.Enqueue q1 key value :: after) s
        = (some (processFunc key.received value.received s.2).1,
            runWriters (gob kvId tooBig) after
              ((runWriters (gob kvId tooBig) before s).1,
                (processFunc key.received value.received s.2).2))) ∧
    (∀ q1 : Queue Client, q1.keyPrefix = q.keyPrefix →
      ((WriterCall.AdvanceEpoch q1).run (gob kvId tooBig)
        (runWriters (gob kvId tooBig) before s)).1 = none →
      dequeueDuring (gob kvId tooBig) q processFunc advanceFunc
          (before ++ WriterCall.AdvanceEpoch q1 :: after) s
        = (some (advanceFunc s.2).1,
            runWriters (gob kvId tooBig) after
              ((runWriters (gob kvId tooBig) before s).1, (advanceFunc s.2).2))) := by
  have hw : (runWriters (gob kvId tooBig) before s).2 = s.2 := by
    obtain ⟨extra, he⟩ := runWriters_world (gob kvId tooBig) before s
    rw [he]
  have hblock : ∀ vs, dequeueDuring (gob kvId tooBig) q processFunc advanceFunc (before ++ vs) s
      = dequeueDuring (gob kvId tooBig) q processFunc advanceFunc vs
          (runWriters (gob kvId tooBig) before s) :=
    fun vs => dequeueDuring_blocked _ q _ _ before vs s hempty
  have hnone := Dequeue_of_takeFirst_none (gob kvId tooBig) q processFunc advanceFunc
    (runWriters (gob kvId tooBig) before s) hempty
  have hfirst : dequeueDuring (gob kvId tooBig) q processFunc advanceFunc before s
      = (none, runWriters (gob kvId tooBig) before s) := by
    have := hblock []
    rw [List.append_nil] at this
    rw [this, dequeueDuring, hnone]
  refine ⟨hfirst, by rw [hfirst]; exact hw, ?_, ?_⟩
  · intro q1 key value hq hnil
    rw [hblock, dequeueDuring, hnone]
    simp only [WriterCall.run] at hnil ⊢
    generalize runWriters (gob kvId tooBig) before s = s1 at hempty hw hnil ⊢
    cases he : (gob kvId tooBig).Encode ⟨key, value, false⟩ with
    | error e =>
      rw [Enqueue_of_encode_error _ _ q1 key value e s1 he] at hnil
      cases hnil
    | ok buf =>
      have hd : (gob kvId tooBig).Decode buf = .ok ⟨key.received, value.received, false⟩ :=
        gobDecode_gobEncode kvId tooBig hid hid2 ht _ buf he
      have htf := takeFirst_append s1.1 buf [] hempty
      have hdq : q.Dequeue (gob kvId tooBig) storeDequeue processFunc advanceFunc
          (s1.1 ++ [⟨q.keyPrefix, buf⟩], s1.2)
          = some ((processFunc key.received value.received s.2).1,
              (s1.1, (processFunc key.received value.received s.2).2)) := by
        rw [Dequeue_of_takeFirst _ q _ _ _ buf _ htf]
        rw [dequeueCallback_of_decode_ok _ _ _ buf _ _ hd]
        simp only [Bool.false_eq_true, if_false, List.append_nil, hw]
      rw [Enqueue_of_encode_ok _ _ q1 key value buf s1 he]
      simp only [storeNewUniqueKV, hq]
      cases after with
      | nil => rw [dequeueDuring, hdq]; rfl
      | cons c cs => rw [dequeueDuring, hdq]
  · intro q1 hq hnil
    rw [hblock, dequeueDuring, hnone]
    simp only [WriterCall.run] at hnil ⊢
    generalize runWriters (gob kvId tooBig) before s = s1 at hempty hw hnil ⊢
    cases he : (gob kvId tooBig).Encode ⟨none, none, true⟩ with
    | error e =>
      rw [AdvanceEpoch_of_encode_error _ _ q1 e s1 he] at hnil
      cases hnil
    | ok buf =>
      have hd : (gob kvId tooBig).Decode buf = .ok ⟨none, none, true⟩ :=
        gobDecode_gobEncode kvId tooBig hid hid2 ht _ buf he
      have htf := takeFirst_append s1.1 buf [] hempty
      have hdq : q.Dequeue (gob kvId tooBig) storeDequeue processFunc advanceFunc
          (s1.1 ++ [⟨q.keyPrefix, buf⟩], s1.2)
          = some ((advanceFunc s.2).1, (s1.1, (advanceFunc s.2).2)) := by
        rw [Dequeue_of_takeFirst _ q _ _ _ buf _ htf]
        rw [dequeueCallback_of_decode_ok _ _ _ buf _ _ hd]
        simp only [if_true, List.append_nil, hw]
      rw [AdvanceEpoch_of_encode_ok _ _ q1 buf s1 he]
      simp only [storeNewUniqueKV, hq]
      cases after with
      | nil => rw [dequeueDuring, hdq]; rfl
      | cons c cs => rw [dequeueDuring, hdq]

/-! ## The theorems at concrete inputs -/

/-- C2 at `Enqueue([]byte("a"), []byte{})` with type id 65 on a 64-bit target. -/
theorem enqueue_dequeue_round_trip_witness :
    createdValues ((New (0 : Nat) "map").Enqueue (gob 65 (2 ^ 33))
        (recordCreate fun _ _ _ _ => none) (some [0x61]) (some []) []).2
      = [[49, 255, 129, 3, 1, 1, 2, 107, 118, 1, 255, 130, 0, 1, 3, 1, 3, 75, 101, 121, 1, 10,
          0, 1, 3, 86, 97, 108, 1, 10, 0, 1, 12, 65, 100, 118, 97, 110, 99, 101, 69, 112, 111,
          99, 104, 1, 2, 0, 0, 0, 6, 255, 130, 1, 1, 97, 0]] ∧
    dequeueCallback (gob 65 (2 ^ 33)) (recordProcess fun _ _ => none) (recordAdvance none)
        [49, 255, 129, 3, 1, 1, 2, 107, 118, 1, 255, 130, 0, 1, 3, 1, 3, 75, 101, 121, 1, 10,
          0, 1, 3, 86, 97, 108, 1, 10, 0, 1, 12, 65, 100, 118, 97, 110, 99, 101, 69, 112, 111,
          99, 104, 1, 2, 0, 0, 0, 6, 255, 130, 1, 1, 97, 0] ([] : Trace Nat)
      = (none, [Event.process (some [0x61]) none]) :=
  ⟨by rfl,
    (enqueue_dequeue_round_trip 65 (2 ^ 33) (by decide) (by decide) (le_refl _)
      (New (0 : Nat) "map") (fun _ _ _ _ => none) (some [0x61]) (some []) _ (by rfl)
      (recordProcess fun _ _ => none) (recordAdvance none) ([] : Trace Nat)
      (fun _ _ => none) none ([] : Trace Nat)).2.2.2.2⟩

/-- C3 at `AdvanceEpoch()` with type id 65 on a 64-bit target. -/
theorem advanceEpoch_dequeue_round_trip_witness :
    createdValues ((New (0 : Nat) "map").AdvanceEpoch (gob 65 (2 ^ 33))
        (recordCreate fun _ _ _ _ => none) []).2
      = [[49, 255, 129, 3, 1, 1, 2, 107, 118, 1, 255, 130, 0, 1, 3, 1, 3, 75, 101, 121, 1, 10,
          0, 1, 3, 86, 97, 108, 1, 10, 0, 1, 12, 65, 100, 118, 97, 110, 99, 101, 69, 112, 111,
          99, 104, 1, 2, 0, 0, 0, 5, 255, 130, 3, 1, 0]] ∧
    dequeueCallback (gob 65 (2 ^ 33)) (recordProcess fun _ _ => none) (recordAdvance none)
        [49, 255, 129, 3, 1, 1, 2, 107, 118, 1, 255, 130, 0, 1, 3, 1, 3, 75, 101, 121, 1, 10,
          0, 1, 3, 86, 97, 108, 1, 10, 0, 1, 12, 65, 100, 118, 97, 110, 99, 101, 69, 112, 111,
          99, 104, 1, 2, 0, 0, 0, 5, 255, 130, 3, 1, 0] ([] : Trace Nat)
      = (none, [Event.advance]) :=
  ⟨by rfl,
    (advanceEpoch_dequeue_round_trip 65 (2 ^ 33) (by decide) (by decide) (le_refl _)
      (New (0 : Nat) "map") (fun _ _ _ _ => none) _ (by rfl)
      (recordProcess fun _ _ => none) (recordAdvance none) ([] : Trace Nat)
      (fun _ _ => none) none ([] : Trace Nat)).2.2⟩

/-- C4 at `New(7, "map").AdvanceEpoch()` with a store that answers with an error. -/
theorem enqueue_forwards_to_NewUniqueKV_witness :
    (gob 65 (2 ^ 33)).Encode ⟨none, none, true⟩
      = .ok [49, 255, 129, 3, 1, 1, 2, 107, 118, 1, 255, 130, 0, 1, 3, 1, 3, 75, 101, 121, 1, 10,
          0, 1, 3, 86, 97, 108, 1, 10, 0, 1, 12, 65, 100, 118, 97, 110, 99, 101, 69, 112, 111,
          99, 104, 1, 2, 0, 0, 0, 5, 255, 130, 3, 1, 0] ∧
    (New (7 : Nat) "map").AdvanceEpoch (gob 65 (2 ^ 33))
        (recordCreate fun _ _ _ _ => some (Error.other "etcd: unavailable")) []
      = (some (Error.other "etcd: unavailable"),
          [Event.create 7 "map"
            [49, 255, 129, 3, 1, 1, 2, 107, 118, 1, 255, 130, 0, 1, 3, 1, 3, 75, 101, 121, 1, 10,
              0, 1, 3, 86, 97, 108, 1, 10, 0, 1, 12, 65, 100, 118, 97, 110, 99, 101, 69, 112,
              111, 99, 104, 1, 2, 0, 0, 0, 5, 255, 130, 3, 1, 0] 0]) :=
  ⟨by rfl,
    ((enqueue_forwards_to_NewUniqueKV (gob 65 (2 ^ 33))
      (recordCreate fun _ _ _ _ => some (Error.other "etcd: unavailable")) (7 : Nat) "map"
      none none ([] : Trace Nat) (fun _ _ _ _ => some (Error.other "etcd: unavailable"))
      []).2 _ (by rfl)).2⟩

/-- C5 at the first three bytes of a record. -/
theorem decode_error_skips_callbacks_witness :
    (gob 65 (2 ^ 33)).Decode [49, 255, 129] = .error Error.ErrUnexpectedEOF ∧
    dequeueCallback (gob 65 (2 ^ 33)) (recordProcess fun _ _ => none) (recordAdvance none)
        [49, 255, 129] ([Event.advance] : Trace Nat)
      = (some Error.ErrUnexpectedEOF, [Event.advance]) :=
  ⟨by rfl,
    (decode_error_skips_callbacks (gob 65 (2 ^ 33)) [49, 255, 129] Error.ErrUnexpectedEOF
      (by rfl) (recordProcess fun _ _ => none) (recordAdvance none) ([] : Trace Nat)
      (fun _ _ => none) none ([Event.advance] : Trace Nat)).2.1⟩

/-- C7 at a stream that carries a key together with the flag. -/
theorem dequeue_dispatches_on_flag_witness :
    (gob 65 (2 ^ 33)).Decode
        [49, 255, 129, 3, 1, 1, 2, 107, 118, 1, 255, 130, 0, 1, 3, 1, 3, 75, 101, 121, 1, 10,
          0, 1, 3, 86, 97, 108, 1, 10, 0, 1, 12, 65, 100, 118, 97, 110, 99, 101, 69, 112, 111,
          99, 104, 1, 2, 0, 0, 0, 8, 255, 130, 1, 1, 97, 2, 1, 0]
      = .ok ⟨some [0x61], none, true⟩ ∧
    dequeueCallback (gob 65 (2 ^ 33)) (recordProcess fun _ _ => none)
        (recordAdvance (some (Error.other "advance failed")))
        [49, 255, 129, 3, 1, 1, 2, 107, 118, 1, 255, 130, 0, 1, 3, 1, 3, 75, 101, 121, 1, 10,
          0, 1, 3, 86, 97, 108, 1, 10, 0, 1, 12, 65, 100, 118, 97, 110, 99, 101, 69, 112, 111,
          99, 104, 1, 2, 0, 0, 0, 8, 255, 130, 1, 1, 97, 2, 1, 0] ([] : Trace Nat)
      = (some (Error.other "advance failed"), [Event.advance]) :=
  ⟨by rfl,
    (dequeue_dispatches_on_flag (gob 65 (2 ^ 33)) _ ⟨some [0x61], none, true⟩ (by rfl)
      (recordProcess fun _ _ => none) (recordAdvance none) ([] : Trace Nat)
      (fun _ _ => none) (some (Error.other "advance failed")) ([] : Trace Nat)).2.1⟩

/-- C8 at a nil key and an empty key, which are sent alike. -/
theorem enqueue_bytes_injective_witness :
    createdValues ((New (0 : Nat) "a").Enqueue (gob 65 (2 ^ 33))
        (recordCreate fun _ _ _ _ => none) none (some [1, 2]) []).2
      = createdValues ((New (1 : Nat) "b").Enqueue (gob 65 (2 ^ 33))
        (recordCreate fun _ _ _ _ => none) (some []) (some [1, 2]) []).2 ∧
    ByteSlice.contents none = ByteSlice.contents (some []) :=
  ⟨by rfl,
    (enqueue_bytes_injective 65 (2 ^ 33) (by decide) (by decide) (le_refl _)
      (New (0 : Nat) "a") (New (1 : Nat) "b") (New (2 : Nat) "c")
      (fun _ _ _ _ => none) (fun _ _ _ _ => none) (fun _ _ _ _ => none)
      none (some [1, 2]) (some []) (some [1, 2]) _ (by rfl) (by rfl)).1⟩

/-- C9, as amended, at a key of three bytes. -/
theorem failed_encoding_leaves_store_witness :
    ∃ data, (gob 65 (2 ^ 33)).Encode ⟨some [1, 2, 3], none, false⟩ = .ok data :=
  (failed_encoding_leaves_store (gob 65 (2 ^ 33)) (recordCreate fun _ _ _ _ => none)
    (New (0 : Nat) "map") (some [1, 2, 3]) none ([] : Trace Nat) (fun _ _ _ _ => none) []
    65 (2 ^ 33)).2.2.1 (by decide)

/-- C10 at `AdvanceEpoch()` on a queue with an earlier trace. -/
theorem enqueue_bytes_depend_on_arguments_only_witness :
    createdValues ((New (3 : Nat) "other").AdvanceEpoch (gob 65 (2 ^ 33))
        (recordCreate fun _ _ _ _ => none) [Event.advance]).2
      = createdValues ([Event.advance] : Trace Nat) ++
        [[49, 255, 129, 3, 1, 1, 2, 107, 118, 1, 255, 130, 0, 1, 3, 1, 3, 75, 101, 121, 1, 10,
          0, 1, 3, 86, 97, 108, 1, 10, 0, 1, 12, 65, 100, 118, 97, 110, 99, 101, 69, 112, 111,
          99, 104, 1, 2, 0, 0, 0, 5, 255, 130, 3, 1, 0]] :=
  ((enqueue_bytes_depend_on_arguments_only (gob 65 (2 ^ 33)) none none).2.2 65 (2 ^ 33) Nat
    (New (3 : Nat) "other") (fun _ _ _ _ => none) [Event.advance]).2 _ (by rfl)

/-- C1 at two records enqueued behind a record of another queue. -/
theorem dequeue_fifo_order_witness :
    takeFirst "map" [⟨"other", [9]⟩] = none ∧
    dequeueTimes (gob 65 (2 ^ 33)) (New (0 : Nat) "map")
        (recordProcess fun key _ => if key = none then some (Error.other "no key") else none)
        (recordAdvance none) 2
        (enqueueAll (gob 65 (2 ^ 33)) (New (0 : Nat) "map")
          [(some [1], some [2]), (none, some [])] ([⟨"other", [9]⟩], ([] : Trace Nat))).2
      = some ([none, some (Error.other "no key")],
          ([⟨"other", [9]⟩], [Event.process (some [1]) (some [2]), Event.process none none])) :=
  ⟨by decide,
    (dequeue_fifo_order 65 (2 ^ 33) (by decide) (by decide) (le_refl _) (New (0 : Nat) "map")
      (fun key _ => if key = none then some (Error.other "no key") else none)
      none [⟨"other", [9]⟩] [] [(some [1], some [2]), (none, some [])] (by decide)
      (by decide)).1⟩

/-- C6 at a `Dequeue` on "map" that starts on an empty store: a writer enqueues
on "other", then another writer enqueues on "map", then an `AdvanceEpoch` on
"map" follows. The call returns with the one record of the second writer
processed; the record of "other" and the later one stay in the store. -/
theorem dequeue_blocks_until_record_witness :
    takeFirst "map"
        (runWriters (gob 65 (2 ^ 33))
          [WriterCall.Enqueue (New (1 : Nat) "other") (some [9]) none]
          (([], []) : StoreWorld (Trace Nat))).1 = none ∧
    (dequeueDuring (gob 65 (2 ^ 33)) (New (0 : Nat) "map")
        (recordProcess fun _ _ => some (Error.other "rejected")) (recordAdvance none)
        ([WriterCall.Enqueue (New (1 : Nat) "other") (some [9]) none] ++
          WriterCall.Enqueue (New (2 : Nat) "map") (some [1]) (some []) ::
          [WriterCall.AdvanceEpoch (New (2 : Nat) "map")])
        (([], []) : StoreWorld (Trace Nat))).1 = some (some (Error.other "rejected")) ∧
    (dequeueDuring (gob 65 (2 ^ 33)) (New (0 : Nat) "map")
        (recordProcess fun _ _ => some (Error.other "rejected")) (recordAdvance none)
        ([WriterCall.Enqueue (New (1 : Nat) "other") (some [9]) none] ++
          WriterCall.Enqueue (New (2 : Nat) "map") (some [1]) (some []) ::
          [WriterCall.AdvanceEpoch (New (2 : Nat) "map")])
        (([], []) : StoreWorld (Trace Nat))).2.2 = [Event.process (some [1]) none] :=
  ⟨by decide,
    congrArg Prod.fst
      ((dequeue_blocks_until_record 65 (2 ^ 33) (by decide) (by decide) (le_refl _)
        (New (0 : Nat) "map") (recordProcess fun _ _ => some (Error.other "rejected"))
        (recordAdvance none) (([], []) : StoreWorld (Trace Nat))
        [WriterCall.Enqueue (New (1 : Nat) "other") (some [9]) none]
        [WriterCall.AdvanceEpoch (New (2 : Nat) "map")] (by decide)).2.2.1
        (New (2 : Nat) "map") (some [1]) (some []) rfl (by rfl)),
    by rfl⟩

end EtcdQueue
